import Mathlib

/-!
# api-pubsub-logger: the logging pipeline

A shallow embedding of the request-logging core of the repository:

* `internal/utils/mask.go`: `sensitiveKeys`, `maskJSON`, `MaskSensitiveData`;
* `internal/http/middleware/logger.go`: `skipRoutes`, `responseRecorder` with its
  `Write` and `WriteHeader`, `LoggingMiddleware`, `extractRouteVersionAndName`,
  `sendToPubSub`;
* `internal/utils/requestid.go`, `internal/utils/context.go`: the context accessors and
  `GenerateRequestID`;
* `internal/http/middleware/requestid.go`, `userid.go`: `RequestIDMiddleware` and
  `UserIDMiddleware`; `internal/http/router.go`: the order of the chain;
* `pkg/logger/api_log.go`: `APILogEvent`; `internal/pubsub/client.go`:
  `Client.PublishAPILogEvent`.

Go values are modelled by value.  A `[]byte` is a list of bytes, a Go `map[string]T` is an
association list whose keys are pairwise distinct, a request body is a reader in its
current state (what it has yet to yield), an interface of the standard library
(`http.ResponseWriter`, `pubsub.Publisher`, the `encoding/json` entry points) is a record of
functions over an explicit state.
-/

set_option autoImplicit false

/-- A byte slice `[]byte`. -/
abbrev Bytes := List UInt8

/-- A Go `error` value, identified by its message. -/
abbrev GoError := String

/-- A finite `float64`, the only kind of number `encoding/json` decodes into an
`interface{}`: the value `(-1)^sign * mant * 2^exp`. -/
structure Float64 where
  sign : Bool
  mant : Nat
  exp : Int
deriving DecidableEq, Repr

/-- The dynamic values `json.Unmarshal` stores into an `interface{}`:
`nil`, `bool`, `float64`, `string`, `[]interface{}` and `map[string]interface{}`. -/
inductive JSON where
  | null
  | bool (b : Bool)
  | num (f : Float64)
  | str (s : String)
  | arr (elems : List JSON)
  | obj (entries : List (String × JSON))
deriving Repr

namespace JSON

/-- The keys of a map, in the order of the association list. -/
def keys (m : List (String × JSON)) : List String := m.map Prod.fst

mutual
/-- Every map inside the value has pairwise distinct keys, as a Go map has. -/
def wf : JSON → Bool
  | .obj m => decide (keys m).Nodup && wfEntries m
  | .arr xs => wfElems xs
  | _ => true
/-- Well-formedness of every value of a map. -/
def wfEntries : List (String × JSON) → Bool
  | [] => true
  | (_, v) :: rest => wf v && wfEntries rest
/-- Well-formedness of every element of a slice. -/
def wfElems : List JSON → Bool
  | [] => true
  | v :: rest => wf v && wfElems rest
end

/-- The assignment `v[key] = val` for a key already in the map `v`: it replaces the value
stored under `key` and leaves the other entries alone. -/
def mapSet (v : List (String × JSON)) (key : String) (val : JSON) : List (String × JSON) :=
  match v with
  | [] => []
  | (k, old) :: rest =>
    if k = key then (k, val) :: rest else (k, old) :: mapSet rest key val

end JSON

namespace utils

open JSON

/-- Sensitive keys that should be masked in logs (`sensitiveKeys` of mask.go). -/
def sensitiveKeys : List String :=
  ["email", "phone_number", "password", "token", "api_key"]

/-- The marker written over a sensitive value. -/
def redacted : String := "***REDACTED***"

mutual
/-- Go `maskJSON`: a type switch on the dynamic value; maps and slices are updated
entry by entry, every other value is returned as it is. -/
def maskJSON : JSON → JSON
  | .obj v => .obj (maskJSON.rangeMap v v)
  | .arr v => .arr (maskJSON.rangeSlice v 0 v)
  | data => data
/-- The loop `for key, val := range v` over a map: `todo` holds the entries still to visit,
`v` is the map as updated so far. -/
def maskJSON.rangeMap : (todo : List (String × JSON)) → (v : List (String × JSON)) →
    List (String × JSON)
  | [], v => v
  | (key, val) :: rest, v =>
    if key ∈ sensitiveKeys then
      maskJSON.rangeMap rest (mapSet v key (.str redacted))
    else
      maskJSON.rangeMap rest (mapSet v key (maskJSON val))
/-- The loop `for i, val := range v` over a slice: `todo` holds the elements from index `i`
on, `v` is the slice as updated so far. -/
def maskJSON.rangeSlice : (todo : List JSON) → (i : Nat) → (v : List JSON) → List JSON
  | [], _, v => v
  | val :: rest, i, v => maskJSON.rangeSlice rest (i + 1) (v.set i (maskJSON val))
end

mutual
/-- The redaction as the specification words it: a recursion on the value. -/
def maskSpec : JSON → JSON
  | .obj m => .obj (maskSpec.entries m)
  | .arr xs => .arr (maskSpec.elems xs)
  | .null => .null
  | .bool b => .bool b
  | .num f => .num f
  | .str s => .str s
/-- Each key of an object is mapped to the marker when it is sensitive and to the
redaction of its value otherwise. -/
def maskSpec.entries : List (String × JSON) → List (String × JSON)
  | [] => []
  | (k, val) :: rest =>
    (k, if k ∈ sensitiveKeys then .str redacted else maskSpec val) :: maskSpec.entries rest
/-- The redaction mapped over the elements of an array, in order. -/
def maskSpec.elems : List JSON → List JSON
  | [] => []
  | val :: rest => maskSpec val :: maskSpec.elems rest
end

/-- The two entry points of `encoding/json` that mask.go calls, at the type `interface{}`:
`Unmarshal` fails (`none`) on text that is not JSON, `Marshal` fails on a value it cannot
encode.  The package is not part of the repository, so it is a parameter of the model. -/
structure JSONCodec where
  Unmarshal : Bytes → Option JSON
  Marshal : JSON → Option Bytes

/-- Go `MaskSensitiveData`: parse, mask, serialise; the input is returned as it is when
either library call fails. -/
def MaskSensitiveData (json : JSONCodec) (data : Bytes) : Bytes :=
  match json.Unmarshal data with
  | none => data
  | some jsonData =>
    match json.Marshal (maskJSON jsonData) with
    | none => data
    | some result => result

mutual
/-- The value `w` is a redaction of `v`: the same kind of value with the same keys and the
same number of elements, the marker under every sensitive key, equal leaves elsewhere. -/
def isRedactionOf : (v w : JSON) → Bool
  | .obj m, .obj n => isRedactionOf.entries m n
  | .arr xs, .arr ys => isRedactionOf.elems xs ys
  | .null, .null => true
  | .bool a, .bool b => a == b
  | .num a, .num b => decide (a = b)
  | .str a, .str b => a == b
  | _, _ => false
/-- Key by key: the keys agree, a sensitive key holds the marker string, any other key
holds a redaction of the original value. -/
def isRedactionOf.entries : (m n : List (String × JSON)) → Bool
  | [], [] => true
  | (k, v) :: m, (l, w) :: n =>
    (k == l) && (if k ∈ sensitiveKeys then
        (match w with
         | .str s => s == redacted
         | _ => false)
      else isRedactionOf v w) && isRedactionOf.entries m n
  | _, _ => false
/-- Element by element, for slices of the same length. -/
def isRedactionOf.elems : (xs ys : List JSON) → Bool
  | [], [] => true
  | v :: xs, w :: ys => isRedactionOf v w && isRedactionOf.elems xs ys
  | _, _ => false
end

end utils

/-!
## A reference JSON codec

A reader and a writer for a fragment of RFC 8259, laid out as `encoding/json` lays its
output out: strings of printable ASCII without escapes, integers that a `float64` holds
exactly, the three literals, arrays and objects.  Text outside the fragment is refused.  The
codec instantiates the library parameter in the closed examples; the theorems below hold for
every codec.
-/

namespace refjson

open JSON

/-- Insignificant white space of RFC 8259: space, tab, line feed, carriage return. -/
def isSpace (b : UInt8) : Bool := b = 32 || b = 9 || b = 10 || b = 13

/-- Drops leading white space. -/
def skipSpace : Bytes → Bytes
  | [] => []
  | b :: bs => if isSpace b then skipSpace bs else b :: bs

/-- The bytes a string of the fragment is made of: printable ASCII other than the quote,
the backslash and the three characters `<`, `>`, `&` that the encoder escapes. -/
def isPlain (b : UInt8) : Bool :=
  decide (32 ≤ b.toNat) && decide (b.toNat ≤ 126) && b != 34 && b != 92 && b != 60 && b != 62 &&
    b != 38

/-- Removes the literal `lit` from the front of the input, when it is there. -/
def dropLit : (lit : Bytes) → Bytes → Option Bytes
  | [], bs => some bs
  | _ :: _, [] => none
  | l :: lit, b :: bs => if l = b then dropLit lit bs else none

/-- Reads the body of a string up to its closing quote; `acc` holds the characters read so
far, last first. -/
def readString : Bytes → List Char → Option (String × Bytes)
  | [], _ => none
  | b :: bs, acc =>
    if b = 34 then some (String.mk acc.reverse, bs)
    else if isPlain b then readString bs (Char.ofNat b.toNat :: acc)
    else none

/-- A decimal digit. -/
def isDigit (b : UInt8) : Bool := decide (48 ≤ b.toNat) && decide (b.toNat ≤ 57)

/-- Reads the digits at the front of the input, accumulating their value. -/
def readDigits : Bytes → Nat → Nat × Bytes
  | [], n => (n, [])
  | b :: bs, n => if isDigit b then readDigits bs (10 * n + (b.toNat - 48)) else (n, b :: bs)

/-- Reads an integer without fraction and exponent, of magnitude at most `2^53` so that
the `float64` holds it exactly; a leading zero stands alone. -/
def readInt (sign : Bool) : Bytes → Option (JSON × Bytes)
  | [] => none
  | b :: bs =>
    if b = 48 then
      (match bs with
       | c :: _ => if c = 46 || c = 101 || c = 69 then none else some (.num ⟨sign, 0, 0⟩, bs)
       | [] => some (.num ⟨sign, 0, 0⟩, bs))
    else if isDigit b then
      (match readDigits (b :: bs) 0 with
       | (n, c :: rest) =>
         if c = 46 || c = 101 || c = 69 then none
         else if n ≤ 2 ^ 53 then some (.num ⟨sign, n, 0⟩, c :: rest) else none
       | (n, []) => if n ≤ 2 ^ 53 then some (.num ⟨sign, n, 0⟩, []) else none)
    else none

/-- The order in which the encoder lays out the keys of an object: the order of the
UTF-8 bytes, which is the order of the code points. -/
def keyLess : List Char → List Char → Bool
  | _, [] => false
  | [], _ :: _ => true
  | a :: s, b :: t => decide (a.toNat < b.toNat) || (decide (a.toNat = b.toNat) && keyLess s t)

/-- The assignment `m[k] = v` on a map kept in increasing key order: it replaces the value
of a key already there and inserts a new key at its place. -/
def mapInsert (m : List (String × JSON)) (k : String) (v : JSON) : List (String × JSON) :=
  match m with
  | [] => [(k, v)]
  | (l, w) :: rest =>
    if k = l then (k, v) :: rest
    else if keyLess k.data l.data then (k, v) :: (l, w) :: rest
    else (l, w) :: mapInsert rest k v

mutual
/-- Reads one JSON value; `fuel` bounds the depth of the recursion. -/
def readValue : (fuel : Nat) → Bytes → Option (JSON × Bytes)
  | 0, _ => none
  | fuel + 1, input =>
    match skipSpace input with
    | [] => none
    | b :: bs =>
      if b = 110 then (dropLit [117, 108, 108] bs).map (fun rest => (.null, rest))
      else if b = 116 then (dropLit [114, 117, 101] bs).map (fun rest => (.bool true, rest))
      else if b = 102 then (dropLit [97, 108, 115, 101] bs).map (fun rest => (.bool false, rest))
      else if b = 34 then (readString bs []).map (fun p => (.str p.1, p.2))
      else if b = 45 then readInt true bs
      else if isDigit b then readInt false (b :: bs)
      else if b = 91 then
        (match skipSpace bs with
         | c :: rest => if c = 93 then some (.arr [], rest) else readElems fuel bs []
         | [] => none)
      else if b = 123 then
        (match skipSpace bs with
         | c :: rest => if c = 125 then some (.obj [], rest) else readMembers fuel bs []
         | [] => none)
      else none
/-- Reads the elements of an array after its opening bracket; `acc` holds the elements
read so far, last first. -/
def readElems : (fuel : Nat) → Bytes → List JSON → Option (JSON × Bytes)
  | 0, _, _ => none
  | fuel + 1, input, acc =>
    match readValue fuel input with
    | none => none
    | some (v, rest) =>
      match skipSpace rest with
      | [] => none
      | c :: rest =>
        if c = 44 then readElems fuel rest (v :: acc)
        else if c = 93 then some (.arr (v :: acc).reverse, rest)
        else none
/-- Reads the members of an object after its opening brace into the map `m`; a key read
twice keeps its last value. -/
def readMembers : (fuel : Nat) → Bytes → List (String × JSON) → Option (JSON × Bytes)
  | 0, _, _ => none
  | fuel + 1, input, m =>
    match skipSpace input with
    | [] => none
    | q :: rest =>
      if q = 34 then
        match readString rest [] with
        | none => none
        | some (k, rest) =>
          match skipSpace rest with
          | [] => none
          | c :: rest =>
            if c = 58 then
              match readValue fuel rest with
              | none => none
              | some (v, rest) =>
                match skipSpace rest with
                | [] => none
                | d :: rest =>
                  if d = 44 then readMembers fuel rest (mapInsert m k v)
                  else if d = 125 then some (.obj (mapInsert m k v), rest)
                  else none
            else none
      else none
end

/-- Reads a whole document: one value, white space around it, nothing else. -/
def Unmarshal (data : Bytes) : Option JSON :=
  match readValue (2 * data.length + 2) data with
  | none => none
  | some (v, rest) => if skipSpace rest = [] then some v else none

/-- The ASCII bytes of a text. -/
def ascii (s : String) : Bytes := s.data.map (fun c => c.toNat.toUInt8)

/-- Writes a string of the fragment between quotes. -/
def writeString (s : String) : Option Bytes :=
  if (ascii s).all isPlain && s.data.all (fun c => decide (c.toNat < 128)) then
    some (34 :: ascii s ++ [34])
  else none

/-- Inserts a rendered member at its place in increasing key order. -/
def insertMember (k : String) (text : Bytes) : List (String × Bytes) → List (String × Bytes)
  | [] => [(k, text)]
  | (l, t) :: rest =>
    if keyLess k.data l.data then (k, text) :: (l, t) :: rest else (l, t) :: insertMember k text rest

/-- Joins rendered items with commas. -/
def commaJoin : List Bytes → Bytes
  | [] => []
  | [t] => t
  | t :: rest => t ++ 44 :: commaJoin rest

mutual
/-- Writes a value the way `json.Marshal` lays it out: no white space, object members in
increasing key order. -/
def writeValue : JSON → Option Bytes
  | .null => some (ascii "null")
  | .bool true => some (ascii "true")
  | .bool false => some (ascii "false")
  | .num f =>
    if f.exp = 0 && decide (f.mant ≤ 2 ^ 53) then
      some ((if f.sign then [45] else []) ++ ascii (Nat.repr f.mant))
    else none
  | .str s => writeString s
  | .arr xs => (writeElems xs).map (fun ts => 91 :: commaJoin ts ++ [93])
  | .obj m =>
    (writeMembers m).map (fun ms =>
      123 :: commaJoin ((ms.foldr (fun p acc => insertMember p.1 p.2 acc) []).map Prod.snd)
        ++ [125])
/-- Writes every element of an array. -/
def writeElems : List JSON → Option (List Bytes)
  | [] => some []
  | v :: rest =>
    match writeValue v, writeElems rest with
    | some t, some ts => some (t :: ts)
    | _, _ => none
/-- Writes every member of an object as `"key":value`, paired with its key. -/
def writeMembers : List (String × JSON) → Option (List (String × Bytes))
  | [] => some []
  | (k, v) :: rest =>
    match writeString k, writeValue v, writeMembers rest with
    | some kt, some t, some ms => some ((k, kt ++ 58 :: t) :: ms)
    | _, _, _ => none
end

/-- The reference codec. -/
def codec : utils.JSONCodec where
  Unmarshal := Unmarshal
  Marshal := writeValue

end refjson

/-!
## Request context
-/

namespace context

/-- A context key: a value of the string type `contextKey` of package utils, or a key of a
type declared by another package (which is never equal to a `contextKey`). -/
inductive Key where
  | contextKey (s : String)
  | foreign (pkg : String) (id : Nat)
deriving DecidableEq, Repr

/-- A dynamic value stored in a context. -/
inductive Any where
  | nil
  | string (s : String)
  | int (n : Int)
deriving DecidableEq, Repr

/-- A `context.Context` as far as its values go: the bindings made by `WithValue`, the
most recent first. -/
abbrev Context := List (Key × Any)

/-- The empty context `context.Background()`. -/
def Background : Context := []

/-- Go `context.WithValue`. -/
def WithValue (parent : Context) (key : Key) (val : Any) : Context := (key, val) :: parent

/-- Go `ctx.Value(key)`: the most recent binding of the key, `nil` when there is none. -/
def Value : Context → Key → Any
  | [], _ => .nil
  | (k, v) :: parent, key => if k = key then v else Value parent key

end context

namespace utils

/-- The key of the request identifier (requestid.go). -/
def requestIDKey : context.Key := .contextKey "requestID"

/-- The key of the user identifier (context.go). -/
def userIDKey : context.Key := .contextKey "userID"

/-- Go `SetRequestID`. -/
def SetRequestID (ctx : context.Context) (requestID : String) : context.Context :=
  context.WithValue ctx requestIDKey (.string requestID)

/-- Go `GetRequestID`: the type assertion `ctx.Value(requestIDKey).(string)`, the empty
string when it fails. -/
def GetRequestID (ctx : context.Context) : String :=
  match context.Value ctx requestIDKey with
  | .string requestID => requestID
  | _ => ""

/-- Go `SetUserID`. -/
def SetUserID (ctx : context.Context) (userID : String) : context.Context :=
  context.WithValue ctx userIDKey (.string userID)

/-- Go `GetUserID`: the type assertion `ctx.Value(userIDKey).(string)`, the empty string
when it fails. -/
def GetUserID (ctx : context.Context) : String :=
  match context.Value ctx userIDKey with
  | .string userID => userID
  | _ => ""

end utils

/-!
## The log event
-/

/-- The type `null.String` of gopkg.in/guregu/null.v3: a string and a flag telling that it
is set.  The carrier `α` is the text of an identifier or the bytes of a body. -/
structure NullString (α : Type) where
  String : α
  Valid : Bool
deriving DecidableEq, Repr

namespace null

/-- Go `null.NewString`. -/
def NewString {α : Type} (s : α) (valid : Bool) : NullString α := ⟨s, valid⟩

/-- Go `null.String.Ptr`: the string when it is set, `nil` otherwise. -/
def Ptr {α : Type} (s : NullString α) : Option α := if s.Valid then some s.String else none

end null

namespace logger

/-- Go `APILogEvent` (api_log.go).  `Duration` is the number of seconds,
`CreatedAt` the instant in nanoseconds. -/
structure APILogEvent where
  RequestID : NullString String
  Service : String
  URL : String
  Method : String
  ResponseCode : Int
  ResponseBody : NullString Bytes
  RequestBody : NullString Bytes
  UserID : NullString String
  Duration : Float64
  Version : String
  Name : String
  CreatedAt : Int
deriving DecidableEq, Repr

end logger

/-!
## The pieces of the standard library and of gorilla/mux the middleware uses
-/

namespace strings

/-- The ASCII branch of `strings.ToUpper`: `c -= 'a' - 'A'` for a lower-case letter. -/
def asciiUpper (c : Char) : Char :=
  if 97 ≤ c.toNat ∧ c.toNat ≤ 122 then Char.ofNat (c.toNat - 32) else c

/-- Go `strings.ToUpper`: a text of ASCII characters only is mapped letter by letter, any
other text is mapped through `unicode.ToUpper`, the case table of the Unicode standard,
which is a parameter here. -/
def ToUpper (unicodeToUpper : Char → Char) (s : String) : String :=
  if s.data.all (fun c => decide (c.toNat < 128)) then String.mk (s.data.map asciiUpper)
  else String.mk (s.data.map unicodeToUpper)

/-- Go `strings.HasPrefix`. -/
def HasPrefix (s pre : String) : Bool := pre.data.isPrefixOf s.data

/-- Go `strings.Trim`: the text without its leading and trailing characters that are in
the cutset. -/
def Trim (s cutset : String) : String :=
  String.mk ((s.data.dropWhile (fun c => cutset.data.contains c)).reverse.dropWhile
    (fun c => cutset.data.contains c)).reverse

/-- The pieces of a text between the occurrences of a one-character separator; `cur`
holds the piece being read, last character first. -/
def splitAux (sep : Char) : List Char → List Char → List String
  | [], cur => [String.mk cur.reverse]
  | c :: rest, cur =>
    if c = sep then String.mk cur.reverse :: splitAux sep rest []
    else splitAux sep rest (c :: cur)

/-- Go `strings.Split` for a separator of one character, the only kind the repository
passes. -/
def Split (s : String) (sep : Char) : List String := splitAux sep s.data []

end strings

namespace mux

/-- A route of gorilla/mux as far as the middleware reads it: its name (empty when it
has none) and its path template (absent when the route has no path). -/
structure Route where
  name : String
  pathTemplate : Option String
deriving DecidableEq, Repr

/-- Go `Route.GetName`. -/
def Route.GetName (r : Route) : String := r.name

/-- Go `Route.GetPathTemplate`: the template, or the empty string and an error. -/
def Route.GetPathTemplate (r : Route) : String × Option GoError :=
  match r.pathTemplate with
  | some tpl => (tpl, none)
  | none => ("", some "mux: route doesn't have a path")

end mux

namespace http

/-- Go `http.StatusOK`. -/
def StatusOK : Int := 200

/-- The interface `http.ResponseWriter` over the state `σ` of the writer: `Write` returns
the number of bytes written and an error, next to the new state. -/
structure ResponseWriter (σ : Type) where
  Write : σ → Bytes → σ × (Int × Option GoError)
  WriteHeader : σ → Int → σ

/-- One call on a response writer. -/
inductive Call where
  | Write (b : Bytes)
  | WriteHeader (statusCode : Int)
deriving DecidableEq, Repr

/-- The state of a writer after one call. -/
def ResponseWriter.call {σ : Type} (W : ResponseWriter σ) (s : σ) : Call → σ
  | .Write b => (W.Write s b).1
  | .WriteHeader statusCode => W.WriteHeader s statusCode

/-- The state of a writer after a sequence of calls. -/
def ResponseWriter.calls {σ : Type} (W : ResponseWriter σ) (s : σ) (cs : List Call) : σ :=
  cs.foldl W.call s

/-- A writer that keeps a record of the calls it receives, in order, and hands each of
them to the writer `W`. -/
def ResponseWriter.spy {σ : Type} (W : ResponseWriter σ) : ResponseWriter (σ × List Call) where
  Write := fun s b => (((W.Write s.1 b).1, s.2 ++ [.Write b]), (W.Write s.1 b).2)
  WriteHeader := fun s statusCode => (W.WriteHeader s.1 statusCode, s.2 ++ [.WriteHeader statusCode])

/-- A writer that accepts every byte: it appends to its buffer, keeps the last status,
and reports the whole slice written. -/
def acceptAll : ResponseWriter (Bytes × Int) where
  Write := fun s b => ((s.1 ++ b, s.2), (b.length, none))
  WriteHeader := fun s statusCode => (s.1, statusCode)

/-- The byte slices of the `Write` calls of a sequence, in order. -/
def writes : List Call → List Bytes
  | [] => []
  | .Write b :: cs => b :: writes cs
  | .WriteHeader _ :: cs => writes cs

/-- The status codes of the `WriteHeader` calls of a sequence, in order. -/
def headers : List Call → List Int
  | [] => []
  | .Write _ :: cs => headers cs
  | .WriteHeader statusCode :: cs => statusCode :: headers cs

/-- A request URL: the decoded path and the text `URL.String()` reassembles. -/
structure URL where
  Path : String
  text : String
deriving DecidableEq, Repr

/-- Go `URL.String`. -/
def URL.String (u : URL) : String := u.text

/-- A request body, a reader in its current state: the bytes it has yet to yield and the
error, if any, that ends the reading. -/
structure Body where
  data : Bytes
  err : Option GoError
deriving DecidableEq, Repr

/-- A reader that has been read to its end: it has no byte left to yield, and ends the way
it ended. -/
def Body.drained (body : Body) : Body := ⟨[], body.err⟩

/-- Go `io.ReadAll`: the bytes read and the error that ended the reading, next to the
reader, which the call leaves at its end. -/
def ReadAll (body : Body) : (Bytes × Option GoError) × Body :=
  ((body.data, body.err), body.drained)

/-- Go `io.NopCloser(bytes.NewBuffer(b))`: a body that yields `b`. -/
def NopCloser (b : Bytes) : Body := ⟨b, none⟩

/-- The bytes of an HTTP token, by their codes: the letters, the digits and the
punctuation an RFC 7230 token may hold (`validHeaderFieldByte` of net/textproto). -/
def validHeaderFieldByte (c : Char) : Bool :=
  decide (97 ≤ c.toNat ∧ c.toNat ≤ 122) || decide (65 ≤ c.toNat ∧ c.toNat ≤ 90) ||
    decide (48 ≤ c.toNat ∧ c.toNat ≤ 57) ||
    [33, 35, 36, 37, 38, 39, 42, 43, 45, 46, 94, 95, 96, 124, 126].contains c.toNat

/-- The casing loop of `textproto.CanonicalMIMEHeaderKey`: a letter is upper case at the
start and after a hyphen, lower case elsewhere. -/
def canonicalCase : (upper : Bool) → List Char → List Char
  | _, [] => []
  | upper, c :: rest =>
    let d :=
      if upper && decide (97 ≤ c.toNat ∧ c.toNat ≤ 122) then Char.ofNat (c.toNat - 32)
      else if !upper && decide (65 ≤ c.toNat ∧ c.toNat ≤ 90) then Char.ofNat (c.toNat + 32)
      else c
    d :: canonicalCase (decide (d.toNat = 45)) rest

/-- Go `textproto.CanonicalMIMEHeaderKey`: a key made of token bytes is put in canonical
case, any other key is returned as it is. -/
def CanonicalMIMEHeaderKey (s : String) : String :=
  if s.data.all validHeaderFieldByte then String.mk (canonicalCase true s.data) else s

/-- Go `http.Header`, a `map[string][]string`: the keys with their values. -/
structure Header where
  entries : List (String × List String)
deriving DecidableEq, Repr

/-- The map access `h[key]`: the values stored under exactly this key, `nil` when there
are none. -/
def Header.lookup (h : Header) (key : String) : List String :=
  match h.entries.find? (fun e => e.1 = key) with
  | some e => e.2
  | none => []

/-- The map assignment `h[key] = vs`. -/
def Header.assign (h : Header) (key : String) (vs : List String) : Header :=
  if h.entries.any (fun e => e.1 = key) then
    ⟨h.entries.map (fun e => if e.1 = key then (key, vs) else e)⟩
  else ⟨h.entries ++ [(key, vs)]⟩

/-- Go `Header.Values`: the values under the canonical form of the key. -/
def Header.Values (h : Header) (key : String) : List String :=
  h.lookup (CanonicalMIMEHeaderKey key)

/-- Go `Header.Get`: the first value under the canonical form of the key, the empty string
when there is none. -/
def Header.Get (h : Header) (key : String) : String :=
  match h.lookup (CanonicalMIMEHeaderKey key) with
  | v :: _ => v
  | [] => ""

/-- Go `Header.Set`: the one value replaces what the canonical key held. -/
def Header.Set (h : Header) (key value : String) : Header :=
  h.assign (CanonicalMIMEHeaderKey key) [value]

/-- Go `Header.Add`: the value is appended to those of the canonical key. -/
def Header.Add (h : Header) (key value : String) : Header :=
  h.assign (CanonicalMIMEHeaderKey key) (h.lookup (CanonicalMIMEHeaderKey key) ++ [value])

/-- Go `http.Request` as far as the middlewares read it; `route` is the result of
`mux.CurrentRoute`. -/
structure Request where
  Method : String
  URL : URL
  Header : Header
  Body : Option Body
  ctx : context.Context
  route : Option mux.Route
deriving DecidableEq, Repr

/-- Go `Request.Context`. -/
def Request.Context (r : Request) : context.Context := r.ctx

/-- Go `Request.WithContext`: a copy of the request with the context changed. -/
def Request.WithContext (r : Request) (ctx : context.Context) : Request :=
  { r with ctx := ctx }

/-- What a handler does with its writer: a finite sequence of `Write` and `WriteHeader`
calls, each `Write` followed by a continuation that sees what the call returned. -/
inductive Steps where
  | done
  | Write (b : Bytes) (next : Int × Option GoError → Steps)
  | WriteHeader (statusCode : Int) (next : Steps)

/-- Runs the steps of a handler on a writer. -/
def Steps.run {σ : Type} (W : ResponseWriter σ) : Steps → σ → σ
  | .done, s => s
  | .Write b next, s => (next (W.Write s b).2).run W (W.Write s b).1
  | .WriteHeader statusCode next, s => next.run W (W.WriteHeader s statusCode)

/-- The calls a handler makes when it runs on a writer. -/
def Steps.trace {σ : Type} (W : ResponseWriter σ) : Steps → σ → List Call
  | .done, _ => []
  | .Write b next, s => .Write b :: (next (W.Write s b).2).trace W (W.Write s b).1
  | .WriteHeader statusCode next, s => .WriteHeader statusCode :: next.trace W (W.WriteHeader s statusCode)

/-- An `http.Handler`: `ServeHTTP(w, r)` as the steps it takes on `w`, given `r`. -/
abbrev Handler := Request → Steps

end http

namespace pubsub

/-- The interface `Publisher` (interface.go) over the state `π` of the client; an error is
reported as `some`. -/
structure Publisher (π : Type) where
  PublishAPILogEvent : π → context.Context → logger.APILogEvent → π × Option GoError
  Close : π → π × Option GoError

/-- A publisher that keeps a record of the events it is asked to publish, in order, and
hands each of them to the publisher `P`. -/
def Publisher.spy {π : Type} (P : Publisher π) : Publisher (π × List logger.APILogEvent) where
  PublishAPILogEvent := fun s ctx event =>
    (((P.PublishAPILogEvent s.1 ctx event).1, s.2 ++ [event]), (P.PublishAPILogEvent s.1 ctx event).2)
  Close := fun s => (((P.Close s.1).1, s.2), (P.Close s.1).2)

end pubsub

/-!
## The logging middleware (logger.go)
-/

namespace middleware

/-- Routes to skip from logging, e.g. health checks (`skipRoutes`): the keys of the map. -/
def skipRoutes : List String := ["GET::/health"]

/-- Go `responseRecorder`: the wrapped writer, the buffer that captures the response body,
and the status code. -/
structure responseRecorder (σ : Type) where
  ResponseWriter : σ
  body : Bytes
  statusCode : Int

/-- Go `responseRecorder.Write`: `rw.body.Write(b)`, then
`return rw.ResponseWriter.Write(b)`. -/
def responseRecorder.Write {σ : Type} (W : http.ResponseWriter σ) (rw : responseRecorder σ)
    (b : Bytes) : responseRecorder σ × (Int × Option GoError) :=
  ({ ResponseWriter := (W.Write rw.ResponseWriter b).1
     body := rw.body ++ b
     statusCode := rw.statusCode },
   (W.Write rw.ResponseWriter b).2)

/-- Go `responseRecorder.WriteHeader`: `rw.statusCode = statusCode`, then
`rw.ResponseWriter.WriteHeader(statusCode)`. -/
def responseRecorder.WriteHeader {σ : Type} (W : http.ResponseWriter σ)
    (rw : responseRecorder σ) (statusCode : Int) : responseRecorder σ :=
  { ResponseWriter := W.WriteHeader rw.ResponseWriter statusCode
    body := rw.body
    statusCode := statusCode }

/-- The recorder as the `http.ResponseWriter` the next handler is given. -/
def responseRecorder.writer {σ : Type} (W : http.ResponseWriter σ) :
    http.ResponseWriter (responseRecorder σ) where
  Write := responseRecorder.Write W
  WriteHeader := responseRecorder.WriteHeader W

/-- The recorder `LoggingMiddleware` creates around the writer `w`: an empty buffer and
the status `http.StatusOK`. -/
def newRecorder {σ : Type} (w : σ) : responseRecorder σ :=
  { ResponseWriter := w, body := [], statusCode := http.StatusOK }

/-- Go `extractRouteVersionAndName`: the name and the version of the mux route. -/
def extractRouteVersionAndName (route : Option mux.Route) : String × String :=
  match route with
  | none => ("", "")
  | some route =>
    let name := route.GetName
    let pathTemplate := route.GetPathTemplate.1
    let parts := strings.Split (strings.Trim pathTemplate "/") '/'
    match parts with
    | part :: _ => if strings.HasPrefix part "v" then (name, part) else (name, "")
    | [] => (name, "")

/-- What the standard library and the clock supply to one call of the middleware: the
JSON codec, the Unicode case table behind `strings.ToUpper`, the value of `time.Now()` on
entry, and the value of `time.Since(startTime).Seconds()` when the event is built. -/
structure Env where
  json : utils.JSONCodec
  unicodeToUpper : Char → Char
  now : Int
  sinceSeconds : Float64

/-- The statement `go sendToPubSub(ctx, pubsubClient, logData)`: a unit of work started
with the context and the event it is given; the client is the one of the middleware. -/
structure Goroutine where
  ctx : context.Context
  logData : logger.APILogEvent
deriving DecidableEq, Repr

/-- Go `sendToPubSub`: one call of `PublishAPILogEvent`; a failure is written to the
process log and goes nowhere else.  Returns the state of the client and the lines logged. -/
def sendToPubSub {π : Type} (client : pubsub.Publisher π) (p : π) (ctx : context.Context)
    (logData : logger.APILogEvent) : π × List String :=
  match (client.PublishAPILogEvent p ctx logData).2 with
  | some err =>
    ((client.PublishAPILogEvent p ctx logData).1, ["Failed to publish API log event: " ++ err])
  | none => ((client.PublishAPILogEvent p ctx logData).1, [])

/-- Runs the units of work that were started, one after the other. -/
def runAll {π : Type} (client : pubsub.Publisher π) (p : π) (gs : List Goroutine) : π :=
  gs.foldl (fun p g => (sendToPubSub client p g.ctx g.logData).1) p

/-- What one call of the middleware leaves behind: the state of the client-facing writer
and the units of work started with `go`. -/
structure Served (σ : Type) where
  w : σ
  spawned : List Goroutine

/-- The lookup key `fmt.Sprintf("%s::%s", strings.ToUpper(r.Method), r.URL.Path)`. -/
def routeKey (env : Env) (r : http.Request) : String :=
  strings.ToUpper env.unicodeToUpper r.Method ++ "::" ++ r.URL.Path

/-- The bytes `io.ReadAll(r.Body)` returns, its error dropped; none for a nil body. -/
def readBody (r : http.Request) : Bytes :=
  match r.Body with
  | some body => (http.ReadAll body).1.1
  | none => []

/-- The request once `io.ReadAll(r.Body)` has returned: the reader of its body is left at
its end. -/
def drainBody (r : http.Request) : http.Request :=
  match r.Body with
  | some body => { r with Body := some (http.ReadAll body).2 }
  | none => r

/-- The assignment `r.Body = io.NopCloser(bytes.NewBuffer(requestBody))`, made when the
body is not nil. -/
def setBody (r : http.Request) (requestBody : Bytes) : http.Request :=
  match r.Body with
  | some _ => { r with Body := some (http.NopCloser requestBody) }
  | none => r

/-- The request handed to the next handler, in terms of the request that arrived: its body
is read to the end, then restored from the bytes read. -/
def restoreBody (r : http.Request) : http.Request :=
  setBody (drainBody r) (readBody r)

/-- The event `LoggingMiddleware` builds once the next handler has returned. -/
def buildEvent {σ : Type} (env : Env) (serviceName : String) (r : http.Request)
    (requestBody : Bytes) (recorder : responseRecorder σ) : logger.APILogEvent :=
  let ctx := r.Context
  let requestID := utils.GetRequestID ctx
  let userID := utils.GetUserID ctx
  let maskedRequestBody := utils.MaskSensitiveData env.json requestBody
  let maskedResponseBody := utils.MaskSensitiveData env.json recorder.body
  let route := extractRouteVersionAndName r.route
  { RequestID := null.NewString requestID (decide (requestID.utf8ByteSize > 0))
    Service := serviceName
    Method := r.Method
    URL := r.URL.String
    RequestBody := null.NewString maskedRequestBody (decide (maskedRequestBody.length > 0))
    ResponseBody := null.NewString maskedResponseBody (decide (maskedResponseBody.length > 0))
    ResponseCode := recorder.statusCode
    UserID := null.NewString userID (decide (userID.utf8ByteSize > 0))
    Version := route.2
    Name := route.1
    CreatedAt := env.now
    Duration := env.sinceSeconds }

/-- Go `LoggingMiddleware(pubsubClient, serviceName)(next).ServeHTTP(w, r)`. -/
def LoggingMiddleware {σ : Type} (env : Env) (serviceName : String) (next : http.Handler)
    (W : http.ResponseWriter σ) (w : σ) (r : http.Request) : Served σ :=
  if routeKey env r ∈ skipRoutes then
    { w := (next r).run W w, spawned := [] }
  else
    let requestBody := readBody r
    let r := setBody (drainBody r) requestBody
    let recorder := (next r).run (responseRecorder.writer W) (newRecorder w)
    let logData := buildEvent env serviceName r requestBody recorder
    { w := recorder.ResponseWriter, spawned := [⟨context.Background, logData⟩] }

end middleware

/-!
## Closed examples

The requests and handlers of logger_test.go and of the specification, over the reference
codec.
-/

namespace scenario

open middleware

/-- The case table of the examples: the ASCII letters, and the two characters beyond ASCII
whose upper case is an ASCII letter (dotless i and long s). -/
def unicodeToUpper (c : Char) : Char :=
  if c.toNat = 0x131 then 'I' else if c.toNat = 0x17F then 'S' else strings.asciiUpper c

/-- The environment of the examples: the reference codec, a request that enters at the
instant 0 and is logged a quarter of a second later. -/
def env : Env where
  json := refjson.codec
  unicodeToUpper := unicodeToUpper
  now := 0
  sinceSeconds := ⟨false, 1, -2⟩

/-- A request without body for the given method and path, as `httptest.NewRequest` builds
it, with the given route. -/
def request (method path : String) (route : Option mux.Route) : http.Request where
  Method := method
  URL := ⟨path, path⟩
  Header := ⟨[]⟩
  Body := some ⟨[], none⟩
  ctx := context.Background
  route := route

/-- The handler of `TestLoggingMiddleware_SkipsHealthCheck`. -/
def healthHandler : http.Handler := fun _ =>
  .WriteHeader 200 (.Write (refjson.ascii "\x7b\"status\":\"ok\"\x7d") (fun _ => .done))

/-- The request of the concrete scenario of the specification: `POST /v1/items` with a
sensitive body, matched by the route `create_item`, with the request identifier `req-789`
in its context. -/
def createRequest : http.Request where
  Method := "POST"
  URL := ⟨"/v1/items", "/v1/items"⟩
  Header := ⟨[]⟩
  Body := some ⟨refjson.ascii "\x7b\"email\":\"a@b.com\",\"password\":\"x\"\x7d", none⟩
  ctx := utils.SetRequestID context.Background "req-789"
  route := some ⟨"create_item", some "/v1/items"⟩

/-- The handler of the concrete scenario: status 201 and a body with a sensitive key. -/
def createHandler : http.Handler := fun _ =>
  .WriteHeader 201 (.Write (refjson.ascii "\x7b\"id\":\"1\",\"email\":\"a@b.com\"\x7d")
    (fun _ => .done))

end scenario

/-!
## Request and user identifiers (requestid.go of utils, requestid.go and userid.go of middleware)
-/

namespace rand

/-- The source behind `crypto/rand`: whether reading it fails, and the bytes it yields. -/
structure Source where
  fails : Bool
  stream : Nat → UInt8

/-- Go `rand.Read(b)` on a buffer of `n` bytes: the buffer filled, or `none` for an error. -/
def Read (src : Source) (n : Nat) : Option Bytes :=
  if src.fails then none else some ((List.range n).map src.stream)

end rand

namespace hex

/-- The digits of `encoding/hex`. -/
def hextable : List Char := "0123456789abcdef".data

/-- The loop of `hex.Encode`: `hextable[v>>4]` then `hextable[v&0x0f]` for every byte. -/
def Encode : Bytes → List Char
  | [] => []
  | v :: rest =>
    hextable.getD (v.toNat / 16) '0' :: hextable.getD (v.toNat % 16) '0' :: Encode rest

/-- Go `hex.EncodeToString`. -/
def EncodeToString (src : Bytes) : String := String.mk (Encode src)

end hex

namespace utils

/-- Go `GenerateRequestID`: 16 bytes of the random source in hexadecimal, the empty
string when the source fails. -/
def GenerateRequestID (src : rand.Source) : String :=
  match rand.Read src 16 with
  | none => ""
  | some b => hex.EncodeToString b

end utils

namespace middleware

/-- What serving a request through the middleware chain leaves behind: the state of the
client-facing writer, the header map `w.Header()` of the response, and the units of work
started with `go`. -/
structure Exchange (σ : Type) where
  w : σ
  header : http.Header
  spawned : List Goroutine

/-- An `http.Handler` as a stage of the chain: `ServeHTTP(w, r)` from the state of the
writer and of its header map. -/
abbrev Stage (σ : Type) := σ → http.Header → http.Request → Exchange σ

/-- Go `RequestIDMiddleware(next).ServeHTTP(w, r)`. -/
def RequestIDMiddleware {σ : Type} (src : rand.Source) (next : Stage σ) : Stage σ :=
  fun w header r =>
    let requestID := r.Header.Get "X-Request-ID"
    let requestID := if requestID = "" then utils.GenerateRequestID src else requestID
    let ctx := utils.SetRequestID r.Context requestID
    let header := header.Set "X-Request-ID" requestID
    next w header (r.WithContext ctx)

/-- Go `UserIDMiddleware(next).ServeHTTP(w, r)`. -/
def UserIDMiddleware {σ : Type} (next : Stage σ) : Stage σ :=
  fun w header r =>
    let userID := r.Header.Get "X-User-ID"
    let ctx := utils.SetUserID r.Context userID
    next w header (r.WithContext ctx)

/-- The handler `LoggingMiddleware(pubsubClient, serviceName)(next)` as a stage of the
chain; the handlers of the model leave the header map as it is. -/
def LoggingStage {σ : Type} (env : Env) (serviceName : String) (next : http.Handler)
    (W : http.ResponseWriter σ) : Stage σ :=
  fun w header r =>
    { w := (LoggingMiddleware env serviceName next W w r).w
      header := header
      spawned := (LoggingMiddleware env serviceName next W w r).spawned }

/-- The handler the router of router.go serves a matched route with: the middlewares in
the order of the `r.Use` calls, the first one outermost. -/
def routerChain {σ : Type} (env : Env) (serviceName : String) (src : rand.Source)
    (next : http.Handler) (W : http.ResponseWriter σ) : Stage σ :=
  RequestIDMiddleware src (UserIDMiddleware (LoggingStage env serviceName next W))

/-- One request served to the end: the middleware runs the handler, then the units of work
it started run against the client.  Returns the state of the writer, the state of the
client, and the lines written to the process log. -/
def serveAndPublish {σ π : Type} (client : pubsub.Publisher π) (p : π) (env : Env)
    (serviceName : String) (next : http.Handler) (W : http.ResponseWriter σ) (w : σ)
    (r : http.Request) : σ × π × List String :=
  let served := LoggingMiddleware env serviceName next W w r
  (served.w,
   served.spawned.foldl
     (fun acc g => ((sendToPubSub client acc.1 g.ctx g.logData).1,
       acc.2 ++ (sendToPubSub client acc.1 g.ctx g.logData).2))
     (p, []))

end middleware

/-!
## The event on the wire (api_log.go, client.go)

The struct encoder of `encoding/json` and the method `MarshalJSON` of `null.String`, as
their packages document them: a field tagged `omitempty` is left out when its value is
empty, which is said of `false`, of 0, of a nil pointer or interface and of an array,
slice, map or string of length zero, never of a struct; an unset `null.String` is written
as `null`.
-/

namespace encoding

/-- The JSON value written for a field of the event. -/
inductive Value where
  | null
  | string (s : String)
  | bytes (b : Bytes)
  | int (n : Int)
  | float (f : Float64)
  | time (unixNano : Int)
deriving DecidableEq, Repr

/-- One field of a struct as the encoder sees it: the key of its tag, the option
`omitempty`, whether the Go value is empty in the sense of `isEmptyValue`, and the encoding
of the value, `none` when it cannot be encoded. -/
structure Field where
  name : String
  omitempty : Bool
  isEmptyValue : Bool
  value : Option Value
deriving DecidableEq, Repr

/-- The struct encoder: the fields in declaration order, an empty field with `omitempty`
left out, an error as soon as a field cannot be encoded. -/
def encodeStruct : List Field → Option (List (String × Value))
  | [] => some []
  | f :: rest =>
    if f.omitempty && f.isEmptyValue then encodeStruct rest
    else
      match f.value, encodeStruct rest with
      | some v, some members => some ((f.name, v) :: members)
      | _, _ => none

/-- The method `MarshalJSON` of `time.Time`: an error for a year outside 0..9999 (the
instant is taken in UTC). -/
def timeMarshalJSON (unixNano : Int) : Option Value :=
  if -62167219200 ≤ unixNano / 1000000000 ∧ unixNano / 1000000000 < 253402300800 then
    some (.time unixNano)
  else none

end encoding

namespace null

/-- The method `MarshalJSON` of `null.String`: `null` when the string is not set, the
string otherwise. -/
def MarshalJSON {α : Type} (enc : α → encoding.Value) (s : NullString α) : encoding.Value :=
  if !s.Valid then .null else enc s.String

end null

namespace logger

/-- The fields of `APILogEvent` with the tags of api_log.go.  The four `null.String` fields
are structs, so none of them is an empty value. -/
def APILogEvent.fields (e : APILogEvent) : List encoding.Field :=
  [ ⟨"request_id", false, false, some (null.MarshalJSON .string e.RequestID)⟩,
    ⟨"service", false, decide (e.Service.utf8ByteSize = 0), some (.string e.Service)⟩,
    ⟨"url", false, decide (e.URL.utf8ByteSize = 0), some (.string e.URL)⟩,
    ⟨"method", false, decide (e.Method.utf8ByteSize = 0), some (.string e.Method)⟩,
    ⟨"response_code", false, decide (e.ResponseCode = 0), some (.int e.ResponseCode)⟩,
    ⟨"response_body", true, false, some (null.MarshalJSON .bytes e.ResponseBody)⟩,
    ⟨"request_body", true, false, some (null.MarshalJSON .bytes e.RequestBody)⟩,
    ⟨"user_id", true, false, some (null.MarshalJSON .string e.UserID)⟩,
    ⟨"duration", false, decide (e.Duration.mant = 0), some (.float e.Duration)⟩,
    ⟨"version", false, decide (e.Version.utf8ByteSize = 0), some (.string e.Version)⟩,
    ⟨"name", false, decide (e.Name.utf8ByteSize = 0), some (.string e.Name)⟩,
    ⟨"created_at", false, false, encoding.timeMarshalJSON e.CreatedAt⟩ ]

/-- The call `json.Marshal(event)`: the members of the object written, in order. -/
def APILogEvent.Marshal (e : APILogEvent) : Option (List (String × encoding.Value)) :=
  encoding.encodeStruct e.fields

/-- The reading of the specification: an optional field that is not set has no member in
the object. -/
def APILogEvent.omitsAbsent (e : APILogEvent) (data : List (String × encoding.Value)) : Prop :=
  (e.RequestID.Valid = false → "request_id" ∉ data.map Prod.fst) ∧
  (e.RequestBody.Valid = false → "request_body" ∉ data.map Prod.fst) ∧
  (e.ResponseBody.Valid = false → "response_body" ∉ data.map Prod.fst) ∧
  (e.UserID.Valid = false → "user_id" ∉ data.map Prod.fst)

end logger

namespace pubsub

/-- The topic of the wrapped Pub/Sub client over its state `τ`: `topic.Publish` of a
message followed by `result.Get`, as one call that may fail. -/
structure Topic (τ : Type) where
  Publish : τ → context.Context → List (String × encoding.Value) → τ × Option GoError

/-- Go `Client.PublishAPILogEvent`: the event is marshalled and published; either failure
is logged and returned.  Returns the state of the topic, the error, and the lines logged. -/
def Client.PublishAPILogEvent {τ : Type} (topic : Topic τ) (t : τ) (ctx : context.Context)
    (event : logger.APILogEvent) : (τ × Option GoError) × List String :=
  match event.Marshal with
  | none =>
    ((t, some "json: error calling MarshalJSON for type time.Time"),
     ["Error marshaling API log event: json: error calling MarshalJSON for type time.Time"])
  | some data =>
    match (topic.Publish t ctx data).2 with
    | some err => (((topic.Publish t ctx data).1, some err),
        ["Error publishing API log event: " ++ err])
    | none => (((topic.Publish t ctx data).1, none), [])

end pubsub

/-!
## The depth of the recursion of `maskJSON`
-/

namespace JSON

mutual
/-- The nesting depth of a value: 0 for a scalar, one more than its deepest member for an
object or an array. -/
def depth : JSON → Nat
  | .obj m => depthEntries m + 1
  | .arr xs => depthElems xs + 1
  | _ => 0
/-- The greatest depth among the values of a map. -/
def depthEntries : List (String × JSON) → Nat
  | [] => 0
  | (_, v) :: rest => max (depth v) (depthEntries rest)
/-- The greatest depth among the elements of a slice. -/
def depthElems : List JSON → Nat
  | [] => 0
  | v :: rest => max (depth v) (depthElems rest)
end

end JSON

namespace utils

open JSON

/-- The map loop of `maskJSON` with the recursive call abstracted: `call` may fail to
return. -/
def rangeMapWith (call : JSON → Option JSON) :
    (todo : List (String × JSON)) → (v : List (String × JSON)) → Option (List (String × JSON))
  | [], v => some v
  | (key, val) :: rest, v =>
    if key ∈ sensitiveKeys then rangeMapWith call rest (mapSet v key (.str redacted))
    else
      match call val with
      | none => none
      | some masked => rangeMapWith call rest (mapSet v key masked)

/-- The slice loop of `maskJSON` with the recursive call abstracted. -/
def rangeSliceWith (call : JSON → Option JSON) :
    (todo : List JSON) → (i : Nat) → (v : List JSON) → Option (List JSON)
  | [], _, v => some v
  | val :: rest, i, v =>
    match call val with
    | none => none
    | some masked => rangeSliceWith call rest (i + 1) (v.set i masked)

/-- Go `maskJSON` run with room for `frames` nested calls on the stack: it returns `none`
when a call would have to nest deeper than that. -/
def maskJSONWithin : (frames : Nat) → JSON → Option JSON
  | 0, _ => none
  | frames + 1, .obj v => (rangeMapWith (maskJSONWithin frames) v v).map .obj
  | frames + 1, .arr v => (rangeSliceWith (maskJSONWithin frames) v 0 v).map .arr
  | _ + 1, data => some data

end utils

namespace middleware

/-- The first segment of a path template: what stands between the leading slashes and the
next slash. -/
def firstSegment (pathTemplate : String) : String :=
  String.mk ((pathTemplate.data.dropWhile (fun c => c = '/')).takeWhile (fun c => c ≠ '/'))

/-- The reading of the specification: a segment is a version when it is the letter v
followed by one or more characters. -/
def versionAsClaimed (segment : String) : String :=
  if segment.data.head? = some 'v' ∧ 2 ≤ segment.data.length then segment else ""

end middleware

namespace scenario

/-- An event whose four optional fields are not set. -/
def bareEvent : logger.APILogEvent where
  RequestID := null.NewString "" false
  Service := "test-service"
  URL := "/v1/items"
  Method := "GET"
  ResponseCode := 200
  ResponseBody := null.NewString [] false
  RequestBody := null.NewString [] false
  UserID := null.NewString "" false
  Duration := ⟨false, 1, -2⟩
  Version := "v1"
  Name := "list_items"
  CreatedAt := 0

end scenario

namespace scenario

/-- The request `GET /health` as the router sees it, with a request identifier and two
user identifiers in its headers. -/
def healthRequest : http.Request where
  Method := "GET"
  URL := ⟨"/health", "/health"⟩
  Header := ((http.Header.mk []).Set "X-Request-ID" "existing-req-id-123").Add
    "X-User-ID" "first-user" |>.Add "X-User-ID" "second-user"
  Body := some ⟨[], none⟩
  ctx := context.Background
  route := some ⟨"health", some "/health"⟩

/-- A random source that yields the bytes 0, 1, 2 and so on. -/
def counting : rand.Source := ⟨false, fun i => i.toUInt8⟩

end scenario

/-!
## Scalars, and a handler that reads its body
-/

namespace JSON

/-- A string, a number, a boolean or null. -/
def isScalar : JSON → Bool
  | .obj _ => false
  | .arr _ => false
  | _ => true

end JSON

namespace scenario

/-- A handler that reads the body of its request and writes it back. -/
def echoHandler : http.Handler := fun r =>
  .Write (middleware.readBody r) (fun _ => .done)

end scenario

/-!
## Redaction: `maskJSON` and `MaskSensitiveData`
-/

namespace utils

open JSON

theorem mapSet_append_fresh (pre rest : List (String × JSON)) (key : String) (old x : JSON)
    (h : key ∉ keys pre) :
    mapSet (pre ++ (key, old) :: rest) key x = pre ++ (key, x) :: rest := by
  induction pre with
  | nil => simp [mapSet]
  | cons p pre ih =>
    obtain ⟨k, w⟩ := p
    simp only [keys, List.map_cons, List.mem_cons, not_or] at h
    have hk : ¬ k = key := fun e => h.1 e.symm
    have ih2 := ih (by simpa [keys] using h.2)
    simp [mapSet, hk, ih2]

theorem set_length_append (pre rest : List JSON) (old x : JSON) :
    (pre ++ old :: rest).set pre.length x = pre ++ x :: rest := by
  induction pre with
  | nil => rfl
  | cons p pre ih => simp [List.set, ih]

mutual
/-- On a value whose maps have distinct keys the loops of `maskJSON` compute the
recursion of the specification. -/
theorem maskJSON_eq_maskSpec : ∀ v : JSON, v.wf = true → maskJSON v = maskSpec v
  | .obj m, h => by
    simp only [wf, Bool.and_eq_true, decide_eq_true_eq] at h
    have := rangeMap_eq m [] (by simpa using h.1) h.2
    simpa [maskJSON, maskSpec] using this
  | .arr xs, h => by
    simp only [wf] at h
    have := rangeSlice_eq xs [] h
    simpa [maskJSON, maskSpec] using this
  | .null, _ => rfl
  | .bool _, _ => rfl
  | .num _, _ => rfl
  | .str _, _ => rfl
/-- The map loop, started after the entries `pre` have been visited. -/
theorem rangeMap_eq : ∀ (todo pre : List (String × JSON)),
    (keys (pre ++ todo)).Nodup → wfEntries todo = true →
    maskJSON.rangeMap todo (pre ++ todo) = pre ++ maskSpec.entries todo
  | [], pre, _, _ => by simp [maskJSON.rangeMap, maskSpec.entries]
  | (k, val) :: rest, pre, hnd, hwf => by
    simp only [wfEntries, Bool.and_eq_true] at hwf
    have hfresh : k ∉ keys pre := by
      intro hk
      simp only [keys, List.map_append, List.map_cons] at hnd
      have := (List.nodup_append.1 hnd).2.2
      exact this (by simpa [keys] using hk) (List.mem_cons_self _ _)
    have hnd2 : ∀ x : JSON, (keys ((pre ++ [(k, x)]) ++ rest)).Nodup := by
      intro x
      simpa [keys] using hnd
    have hval := maskJSON_eq_maskSpec val hwf.1
    by_cases hs : k ∈ sensitiveKeys
    · have ih := rangeMap_eq rest (pre ++ [(k, .str redacted)]) (hnd2 _) hwf.2
      simp only [maskJSON.rangeMap, hs, if_true, maskSpec.entries,
        mapSet_append_fresh pre rest k val _ hfresh]
      simpa using ih
    · have ih := rangeMap_eq rest (pre ++ [(k, maskSpec val)]) (hnd2 _) hwf.2
      simp only [maskJSON.rangeMap, hs, if_false, maskSpec.entries,
        mapSet_append_fresh pre rest k val _ hfresh, hval]
      simpa using ih
/-- The slice loop, started at the index `pre.length`. -/
theorem rangeSlice_eq : ∀ (todo pre : List JSON), wfElems todo = true →
    maskJSON.rangeSlice todo pre.length (pre ++ todo) = pre ++ maskSpec.elems todo
  | [], pre, _ => by simp [maskJSON.rangeSlice, maskSpec.elems]
  | val :: rest, pre, hwf => by
    simp only [wfElems, Bool.and_eq_true] at hwf
    have hval := maskJSON_eq_maskSpec val hwf.1
    have ih := rangeSlice_eq rest (pre ++ [maskSpec val]) hwf.2
    simp only [maskJSON.rangeSlice, maskSpec.elems, set_length_append, hval]
    simpa using ih
end

theorem keys_maskSpec_entries (m : List (String × JSON)) :
    keys (maskSpec.entries m) = keys m := by
  induction m with
  | nil => rfl
  | cons p m ih =>
    obtain ⟨k, v⟩ := p
    simp only [keys, List.map_cons, maskSpec.entries] at ih ⊢
    rw [ih]

mutual
/-- The recursion of the specification is idempotent. -/
theorem maskSpec_idem : ∀ v : JSON, maskSpec (maskSpec v) = maskSpec v
  | .obj m => by simp only [maskSpec, maskSpec_entries_idem m]
  | .arr xs => by simp only [maskSpec, maskSpec_elems_idem xs]
  | .null => rfl
  | .bool _ => rfl
  | .num _ => rfl
  | .str _ => rfl
theorem maskSpec_entries_idem : ∀ m : List (String × JSON),
    maskSpec.entries (maskSpec.entries m) = maskSpec.entries m
  | [] => rfl
  | (k, v) :: m => by
    by_cases hs : k ∈ sensitiveKeys
    · simp only [maskSpec.entries, hs, if_true, maskSpec_entries_idem m]
    · simp only [maskSpec.entries, hs, if_false, maskSpec_idem v, maskSpec_entries_idem m]
theorem maskSpec_elems_idem : ∀ xs : List JSON,
    maskSpec.elems (maskSpec.elems xs) = maskSpec.elems xs
  | [] => rfl
  | v :: xs => by simp only [maskSpec.elems, maskSpec_idem v, maskSpec_elems_idem xs]
end

mutual
/-- The recursion of the specification keeps the keys of every map distinct. -/
theorem wf_maskSpec : ∀ v : JSON, v.wf = true → (maskSpec v).wf = true
  | .obj m, h => by
    simp only [wf, Bool.and_eq_true, decide_eq_true_eq] at h
    simp only [maskSpec, wf, Bool.and_eq_true, decide_eq_true_eq, keys_maskSpec_entries]
    exact ⟨h.1, wfEntries_maskSpec m h.2⟩
  | .arr xs, h => by
    simp only [wf] at h
    simp only [maskSpec, wf]
    exact wfElems_maskSpec xs h
  | .null, _ => rfl
  | .bool _, _ => rfl
  | .num _, _ => rfl
  | .str _, _ => rfl
theorem wfEntries_maskSpec : ∀ m : List (String × JSON), wfEntries m = true →
    wfEntries (maskSpec.entries m) = true
  | [], _ => rfl
  | (k, v) :: m, h => by
    simp only [wfEntries, Bool.and_eq_true] at h
    by_cases hs : k ∈ sensitiveKeys
    · simp only [maskSpec.entries, hs, if_true, wfEntries, wf, Bool.true_and]
      exact wfEntries_maskSpec m h.2
    · simp only [maskSpec.entries, hs, if_false, wfEntries, Bool.and_eq_true]
      exact ⟨wf_maskSpec v h.1, wfEntries_maskSpec m h.2⟩
theorem wfElems_maskSpec : ∀ xs : List JSON, wfElems xs = true →
    wfElems (maskSpec.elems xs) = true
  | [], _ => rfl
  | v :: xs, h => by
    simp only [wfElems, Bool.and_eq_true] at h
    simp only [maskSpec.elems, wfElems, Bool.and_eq_true]
    exact ⟨wf_maskSpec v h.1, wfElems_maskSpec xs h.2⟩
end

mutual
/-- The recursion of the specification yields a redaction of its argument. -/
theorem isRedactionOf_maskSpec : ∀ v : JSON, isRedactionOf v (maskSpec v) = true
  | .obj m => by simp only [maskSpec, isRedactionOf, isRedactionOf_entries m]
  | .arr xs => by simp only [maskSpec, isRedactionOf, isRedactionOf_elems xs]
  | .null => rfl
  | .bool _ => by simp [maskSpec, isRedactionOf]
  | .num _ => by simp [maskSpec, isRedactionOf]
  | .str _ => by simp [maskSpec, isRedactionOf]
theorem isRedactionOf_entries : ∀ m : List (String × JSON),
    isRedactionOf.entries m (maskSpec.entries m) = true
  | [] => rfl
  | (k, v) :: m => by
    by_cases hs : k ∈ sensitiveKeys
    · simp [maskSpec.entries, isRedactionOf.entries, hs, isRedactionOf_entries m]
    · simp [maskSpec.entries, isRedactionOf.entries, hs, isRedactionOf_maskSpec v,
        isRedactionOf_entries m]
theorem isRedactionOf_elems : ∀ xs : List JSON,
    isRedactionOf.elems xs (maskSpec.elems xs) = true
  | [] => rfl
  | v :: xs => by
    simp [maskSpec.elems, isRedactionOf.elems, isRedactionOf_maskSpec v, isRedactionOf_elems xs]
end

theorem maskJSON_idem (v : JSON) (h : v.wf = true) : maskJSON (maskJSON v) = maskJSON v := by
  rw [maskJSON_eq_maskSpec v h, maskJSON_eq_maskSpec _ (wf_maskSpec v h), maskSpec_idem]

end utils

/-!
### The claims on redaction
-/

namespace utils

open JSON

/-- C1: on every parsed JSON value (a value whose maps have distinct keys, as every Go map
has) `maskJSON` returns the value of the recursion of the specification: an object maps a
sensitive key to the marker whatever its value was and any other key to the masked value,
an array is masked element by element in order, a string, number, boolean or null is
returned unchanged. -/
theorem maskJSON_refines_maskSpec (v : JSON) (h : v.wf = true) : maskJSON v = maskSpec v :=
  maskJSON_eq_maskSpec v h

/-- The claim C1 at a nested value: a sensitive key holding an object, an array of objects,
leaves of every kind. -/
theorem maskJSON_refines_maskSpec_witness :
    (JSON.obj [("name", .str "Test"), ("email", .obj [("a", .null)]),
        ("list", .arr [.obj [("token", .num ⟨false, 7, 0⟩), ("ok", .bool true)],
          .str "plain string"])]).wf = true ∧
      maskJSON (.obj [("name", .str "Test"), ("email", .obj [("a", .null)]),
        ("list", .arr [.obj [("token", .num ⟨false, 7, 0⟩), ("ok", .bool true)],
          .str "plain string"])]) =
      .obj [("name", .str "Test"), ("email", .str "***REDACTED***"),
        ("list", .arr [.obj [("token", .str "***REDACTED***"), ("ok", .bool true)],
          .str "plain string"])] :=
  ⟨by decide, (maskJSON_refines_maskSpec _ (by decide)).trans (by rfl)⟩

/-- C2: when the input decodes to `v` and the library encodes the masked value to a text
that decodes back to it, the output of `MaskSensitiveData` decodes to a redaction of `v`:
the same keys and array lengths, the marker under every sensitive key, every other leaf
equal to the leaf of the input. -/
theorem MaskSensitiveData_redacts (json : JSONCodec) (data : Bytes) (v : JSON)
    (hv : json.Unmarshal data = some v) (hwf : v.wf = true)
    (hlib : ∃ out, json.Marshal (maskJSON v) = some out ∧
      json.Unmarshal out = some (maskJSON v)) :
    ∃ w, json.Unmarshal (MaskSensitiveData json data) = some w ∧ isRedactionOf v w = true := by
  obtain ⟨out, hm, hu⟩ := hlib
  refine ⟨maskJSON v, ?_, ?_⟩
  · simp only [MaskSensitiveData, hv, hm]
    exact hu
  · rw [maskJSON_eq_maskSpec v hwf]
    exact isRedactionOf_maskSpec v

/-- The claim C2 at the nested payload of the tests, with the reference codec. -/
theorem MaskSensitiveData_redacts_witness :
    ∃ w, refjson.codec.Unmarshal (MaskSensitiveData refjson.codec (refjson.ascii
        "\x7b\"user\": \x7b\"name\": \"Test\", \"email\": \"test@example.com\"\x7d, \"id\": 123\x7d"))
        = some w ∧
      isRedactionOf (.obj [("id", .num ⟨false, 123, 0⟩),
        ("user", .obj [("email", .str "test@example.com"), ("name", .str "Test")])]) w = true :=
  MaskSensitiveData_redacts refjson.codec _ _ (by rfl) (by decide)
    ⟨refjson.ascii
      "\x7b\"id\":123,\"user\":\x7b\"email\":\"***REDACTED***\",\"name\":\"Test\"\x7d\x7d",
      by rfl, by rfl⟩

/-- C3: on a byte sequence that does not parse as JSON `MaskSensitiveData` returns the
sequence itself; its only result is a byte sequence, so no error reaches the caller. -/
theorem MaskSensitiveData_invalid (json : JSONCodec) (data : Bytes)
    (h : json.Unmarshal data = none) : MaskSensitiveData json data = data := by
  simp only [MaskSensitiveData, h]

/-- The claim C3 at the text `{invalid json}` of the tests and at the empty sequence, with
the reference codec. -/
theorem MaskSensitiveData_invalid_witness :
    (refjson.codec.Unmarshal (refjson.ascii "\x7binvalid json\x7d") = none ∧
      MaskSensitiveData refjson.codec (refjson.ascii "\x7binvalid json\x7d") =
        refjson.ascii "\x7binvalid json\x7d") ∧
    (refjson.codec.Unmarshal [] = none ∧ MaskSensitiveData refjson.codec [] = []) :=
  ⟨⟨by rfl, MaskSensitiveData_invalid refjson.codec _ (by rfl)⟩,
   ⟨by rfl, MaskSensitiveData_invalid refjson.codec [] (by rfl)⟩⟩

/-- C4: redaction is idempotent.  `maskJSON (maskJSON v) = maskJSON v` for every parsed
value, and `MaskSensitiveData (MaskSensitiveData d) = MaskSensitiveData d` for every byte
sequence `d` on which the library behaves as a codec: what it decodes is a parsed value
and what it encodes of the masked value decodes back to it. -/
theorem redaction_idempotent (json : JSONCodec) (data : Bytes)
    (hlib : ∀ v, json.Unmarshal data = some v → v.wf = true ∧
      ∀ out, json.Marshal (maskJSON v) = some out → json.Unmarshal out = some (maskJSON v)) :
    MaskSensitiveData json (MaskSensitiveData json data) = MaskSensitiveData json data ∧
      ∀ v : JSON, v.wf = true → maskJSON (maskJSON v) = maskJSON v := by
  refine ⟨?_, maskJSON_idem⟩
  cases hv : json.Unmarshal data with
  | none => simp only [MaskSensitiveData, hv]
  | some v =>
    obtain ⟨hwf, hrt⟩ := hlib v hv
    cases hm : json.Marshal (maskJSON v) with
    | none => simp only [MaskSensitiveData, hv, hm]
    | some out =>
      have hu := hrt out hm
      have h1 : MaskSensitiveData json data = out := by
        simp only [MaskSensitiveData, hv, hm]
      rw [h1]
      simp only [MaskSensitiveData, hu, maskJSON_idem v hwf, hm]

/-- The claim C4 at a payload of the tests, with the reference codec: the second pass
returns the text of the first. -/
theorem redaction_idempotent_witness :
    MaskSensitiveData refjson.codec (MaskSensitiveData refjson.codec
        (refjson.ascii "\x7b\"name\": \"John\", \"email\": \"john@example.com\"\x7d")) =
      refjson.ascii "\x7b\"email\":\"***REDACTED***\",\"name\":\"John\"\x7d" :=
  ((redaction_idempotent refjson.codec
    (refjson.ascii "\x7b\"name\": \"John\", \"email\": \"john@example.com\"\x7d")
    (fun v hv => by
      have hv0 : refjson.codec.Unmarshal
          (refjson.ascii "\x7b\"name\": \"John\", \"email\": \"john@example.com\"\x7d") =
          some (.obj [("email", .str "john@example.com"), ("name", .str "John")]) := by rfl
      have e : JSON.obj [("email", .str "john@example.com"), ("name", .str "John")] = v :=
        Option.some.inj (hv0.symm.trans hv)
      subst e
      refine ⟨by decide, fun out ho => ?_⟩
      have ho0 : refjson.codec.Marshal
          (maskJSON (.obj [("email", .str "john@example.com"), ("name", .str "John")])) =
          some (refjson.ascii "\x7b\"email\":\"***REDACTED***\",\"name\":\"John\"\x7d") := by rfl
      have e2 := Option.some.inj (ho0.symm.trans ho)
      subst e2
      rfl)).1).trans (by rfl)

end utils

/-!
## The response recorder
-/

namespace middleware

open http

theorem spy_calls {σ : Type} (W : ResponseWriter σ) (cs : List Call) (w : σ) (log : List Call) :
    W.spy.calls (w, log) cs = (W.calls w cs, log ++ cs) := by
  induction cs generalizing w log with
  | nil => simp [ResponseWriter.calls]
  | cons c cs ih =>
    have step : W.spy.call (w, log) c = (W.call w c, log ++ [c]) := by
      cases c <;> rfl
    simp only [ResponseWriter.calls, List.foldl_cons] at ih ⊢
    rw [step, ih]
    simp

/-- The recorder after a sequence of calls: the buffer has grown by the slices written,
the wrapped writer has received the same calls, the status code is the last one set. -/
theorem recorder_calls {σ : Type} (W : ResponseWriter σ) (cs : List Call)
    (rw : responseRecorder σ) :
    ((responseRecorder.writer W).calls rw cs).body = rw.body ++ (writes cs).flatten ∧
    ((responseRecorder.writer W).calls rw cs).ResponseWriter = W.calls rw.ResponseWriter cs ∧
    ((responseRecorder.writer W).calls rw cs).statusCode =
      (headers cs).getLast?.getD rw.statusCode := by
  induction cs generalizing rw with
  | nil => simp [ResponseWriter.calls, writes, headers]
  | cons c cs ih =>
    cases c with
    | Write b =>
      have h := ih (responseRecorder.Write W rw b).1
      simp only [ResponseWriter.calls, List.foldl_cons] at h ⊢
      refine ⟨?_, ?_, ?_⟩
      · simpa [ResponseWriter.call, responseRecorder.writer, responseRecorder.Write, writes]
          using h.1
      · simpa [ResponseWriter.call, responseRecorder.writer, responseRecorder.Write]
          using h.2.1
      · simpa [ResponseWriter.call, responseRecorder.writer, responseRecorder.Write, headers]
          using h.2.2
    | WriteHeader statusCode =>
      have h := ih (responseRecorder.WriteHeader W rw statusCode)
      simp only [ResponseWriter.calls, List.foldl_cons] at h ⊢
      refine ⟨?_, ?_, ?_⟩
      · simpa [ResponseWriter.call, responseRecorder.writer, responseRecorder.WriteHeader, writes]
          using h.1
      · simpa [ResponseWriter.call, responseRecorder.writer, responseRecorder.WriteHeader]
          using h.2.1
      · have h3 := h.2.2
        simp only [ResponseWriter.call, responseRecorder.writer, responseRecorder.WriteHeader,
          headers] at h3 ⊢
        rw [h3]
        cases hh : headers cs with
        | nil => simp
        | cons a l => rw [List.getLast?_eq_getLast (a :: l) (List.cons_ne_nil a l)]; rfl

/-- Running the steps of a handler is making the calls of its trace. -/
theorem run_eq_calls {σ : Type} (W : ResponseWriter σ) (p : Steps) (s : σ) :
    p.run W s = W.calls s (p.trace W s) := by
  induction p generalizing s with
  | done => rfl
  | Write b next ih =>
    simp only [Steps.run, Steps.trace, ResponseWriter.calls, List.foldl_cons,
      ResponseWriter.call]
    exact ih _ _
  | WriteHeader statusCode next ih =>
    simp only [Steps.run, Steps.trace, ResponseWriter.calls, List.foldl_cons,
      ResponseWriter.call]
    exact ih _

/-- Behind the recorder a handler takes the steps it takes on the wrapped writer. -/
theorem trace_recorder {σ : Type} (W : ResponseWriter σ) (p : Steps) (rw : responseRecorder σ) :
    p.trace (responseRecorder.writer W) rw = p.trace W rw.ResponseWriter := by
  induction p generalizing rw with
  | done => rfl
  | Write b next ih =>
    simp only [Steps.trace]
    exact congrArg _ (ih _ _)
  | WriteHeader statusCode next ih =>
    simp only [Steps.trace]
    exact congrArg _ (ih _)

end middleware

/-!
### The claims on the response recorder
-/

namespace middleware

open http

/-- C5: after any sequence of `Write` and `WriteHeader` calls on a recorder that starts with
an empty buffer, the buffer is the concatenation in call order of the slices passed to
`Write`, the wrapped writer has been handed those slices in the same order (and is in the
state the same calls leave it in), and the buffer is byte for byte what was handed to it. -/
theorem recorder_buffer_parity {σ : Type} (W : ResponseWriter σ) (w : σ) (statusCode : Int)
    (cs : List Call) :
    ((responseRecorder.writer W.spy).calls ⟨(w, []), [], statusCode⟩ cs).body
        = (writes cs).flatten ∧
      writes ((responseRecorder.writer W.spy).calls ⟨(w, []), [], statusCode⟩ cs).ResponseWriter.2
        = writes cs ∧
      ((responseRecorder.writer W.spy).calls ⟨(w, []), [], statusCode⟩ cs).ResponseWriter.1
        = W.calls w cs ∧
      ((responseRecorder.writer W.spy).calls ⟨(w, []), [], statusCode⟩ cs).body
        = (writes ((responseRecorder.writer W.spy).calls
            ⟨(w, []), [], statusCode⟩ cs).ResponseWriter.2).flatten := by
  obtain ⟨hb, hw, _⟩ := recorder_calls W.spy cs ⟨(w, []), [], statusCode⟩
  rw [hb, hw, spy_calls]
  simp

/-- C6: `responseRecorder.Write` returns the pair (bytes written, error) that the `Write`
of the wrapped writer returns on the same slice, whatever that pair is, a short write and
an error included; over a writer that accepts everything it returns the length of the
slice and no error. -/
theorem recorder_Write_result {σ : Type} (W : ResponseWriter σ) (rw : responseRecorder σ)
    (b : Bytes) :
    (responseRecorder.Write W rw b).2 = (W.Write rw.ResponseWriter b).2 ∧
      ∀ rec : responseRecorder (Bytes × Int),
        (responseRecorder.Write acceptAll rec b).2 = ((b.length : Int), none) :=
  ⟨rfl, fun _ => rfl⟩

/-- C7: after any sequence of `Write` and `WriteHeader` calls on the recorder that
`LoggingMiddleware` creates, the recorded status code is the argument of the last
`WriteHeader` call, and 200 when there was none; the wrapped writer has been handed every
`WriteHeader` argument in order; a `Write` leaves the recorded status code as it is. -/
theorem recorder_statusCode {σ : Type} (W : ResponseWriter σ) (w : σ) (cs : List Call) :
    ((responseRecorder.writer W.spy).calls (newRecorder (w, [])) cs).statusCode
        = (headers cs).getLast?.getD 200 ∧
      headers ((responseRecorder.writer W.spy).calls (newRecorder (w, [])) cs).ResponseWriter.2
        = headers cs ∧
      ∀ (rw : responseRecorder σ) (b : Bytes),
        (responseRecorder.Write W rw b).1.statusCode = rw.statusCode := by
  obtain ⟨_, hw, hs⟩ := recorder_calls W.spy cs (newRecorder (w, []))
  refine ⟨?_, ?_, fun _ _ => rfl⟩
  · rw [hs]
    rfl
  · rw [hw, spy_calls]
    simp [newRecorder]

end middleware

/-!
## The skip filter
-/

namespace strings

theorem asciiUpper_of_ge (c : Char) (h : 128 ≤ c.toNat) : asciiUpper c = c := by
  unfold asciiUpper
  rw [if_neg]
  omega

/-- The characters that `asciiUpper` maps to a given upper-case letter `x`, here for the
three letters of `GET`. -/
theorem asciiUpper_eq_iff (c : Char) :
    (asciiUpper c = 'G' ↔ c = 'G' ∨ c = 'g') ∧
    (asciiUpper c = 'E' ↔ c = 'E' ∨ c = 'e') ∧
    (asciiUpper c = 'T' ↔ c = 'T' ∨ c = 't') := by
  unfold asciiUpper
  by_cases h : 97 ≤ c.toNat ∧ c.toNat ≤ 122
  · rw [if_pos h]
    obtain ⟨h1, h2⟩ := h
    have hc : c = Char.ofNat c.toNat := (Char.ofNat_toNat c).symm
    generalize c.toNat = n at h1 h2 hc
    subst hc
    interval_cases n <;> decide
  · rw [if_neg h]
    have hg : c ≠ 'g' := by rintro rfl; exact h (by decide)
    have he : c ≠ 'e' := by rintro rfl; exact h (by decide)
    have ht : c ≠ 't' := by rintro rfl; exact h (by decide)
    simp [hg, he, ht]

end strings

namespace strings

/-- The spellings of `GET` in any letter case. -/
theorem map_asciiUpper_eq_GET (l : List Char) :
    l.map asciiUpper = ['G', 'E', 'T'] ↔
      l ∈ [['G', 'E', 'T'], ['G', 'E', 't'], ['G', 'e', 'T'], ['G', 'e', 't'],
        ['g', 'E', 'T'], ['g', 'E', 't'], ['g', 'e', 'T'], ['g', 'e', 't']] := by
  constructor
  · intro h
    rcases l with _ | ⟨a, _ | ⟨b, _ | ⟨c, _ | ⟨d, l⟩⟩⟩⟩
    · simp at h
    · simp at h
    · simp at h
    · simp only [List.map_cons, List.map_nil, List.cons.injEq, and_true] at h
      obtain ⟨ha, hb, hc⟩ := h
      rcases (asciiUpper_eq_iff a).1.1 ha with rfl | rfl <;>
      rcases (asciiUpper_eq_iff b).2.1.1 hb with rfl | rfl <;>
      rcases (asciiUpper_eq_iff c).2.2.1 hc with rfl | rfl <;> decide
    · simp at h
  · intro h
    simp only [List.mem_cons, List.mem_singleton, List.not_mem_nil, or_false] at h
    rcases h with rfl | rfl | rfl | rfl | rfl | rfl | rfl | rfl <;> decide

theorem ToUpper_eq_GET (U : Char → Char)
    (hU : ∀ c : Char, 128 ≤ c.toNat → U c ≠ 'G' ∧ U c ≠ 'E' ∧ U c ≠ 'T') (s : String) :
    ToUpper U s = "GET" ↔
      s ∈ ["GET", "GEt", "GeT", "Get", "gET", "gEt", "geT", "get"] := by
  have hmem : s ∈ ["GET", "GEt", "GeT", "Get", "gET", "gEt", "geT", "get"] ↔
      s.data ∈ [['G', 'E', 'T'], ['G', 'E', 't'], ['G', 'e', 'T'], ['G', 'e', 't'],
        ['g', 'E', 'T'], ['g', 'E', 't'], ['g', 'e', 'T'], ['g', 'e', 't']] := by
    simp only [List.mem_cons, List.mem_singleton, List.not_mem_nil, or_false, String.ext_iff]
  rw [hmem, ← map_asciiUpper_eq_GET]
  unfold ToUpper
  by_cases ha : s.data.all (fun c => decide (c.toNat < 128)) = true
  · rw [if_pos ha, String.ext_iff]
  · rw [if_neg ha, String.ext_iff]
    have hex : ∃ c ∈ s.data, 128 ≤ c.toNat := by
      by_contra hne
      apply ha
      rw [List.all_eq_true]
      intro c hc
      have : ¬ 128 ≤ c.toNat := fun h => hne ⟨c, hc, h⟩
      simpa using this
    obtain ⟨c, hc, hge⟩ := hex
    constructor
    · intro h
      have hm : U c ∈ s.data.map U := List.mem_map_of_mem U hc
      have h2 : (String.mk (List.map U s.data)).data = ['G', 'E', 'T'] := h
      rw [show (String.mk (List.map U s.data)).data = List.map U s.data from rfl] at h2
      rw [h2] at hm
      obtain ⟨h1, h2, h3⟩ := hU c hge
      simp [h1, h2, h3] at hm
    · intro h
      have hm : asciiUpper c ∈ s.data.map asciiUpper := List.mem_map_of_mem asciiUpper hc
      rw [h, asciiUpper_of_ge c hge] at hm
      have : c.toNat < 128 := by
        simp only [List.mem_cons, List.mem_singleton, List.not_mem_nil, or_false] at hm
        rcases hm with rfl | rfl | rfl <;> decide
      omega

end strings

namespace middleware

theorem routeKey_split (u p : List Char)
    (h : u ++ ([':', ':'] ++ p) = ['G', 'E', 'T', ':', ':', '/', 'h', 'e', 'a', 'l', 't', 'h']) :
    u = ['G', 'E', 'T'] ∧ p = ['/', 'h', 'e', 'a', 'l', 't', 'h'] := by
  have hlen := congrArg List.length h
  simp only [List.length_append, List.length_cons, List.length_nil] at hlen
  have hu : u = List.take u.length
      ['G', 'E', 'T', ':', ':', '/', 'h', 'e', 'a', 'l', 't', 'h'] := by
    rw [← h, List.take_left]
  have hp : [':', ':'] ++ p = List.drop u.length
      ['G', 'E', 'T', ':', ':', '/', 'h', 'e', 'a', 'l', 't', 'h'] := by
    rw [← h, List.drop_left]
  have hle : u.length ≤ 10 := by omega
  generalize u.length = n at hu hp hle
  interval_cases n <;> simp_all

/-- A request is skipped exactly when its method is a spelling of `GET` and its path is
`/health`. -/
theorem routeKey_mem_skipRoutes (env : Env)
    (hU : ∀ c : Char, 128 ≤ c.toNat →
      env.unicodeToUpper c ≠ 'G' ∧ env.unicodeToUpper c ≠ 'E' ∧ env.unicodeToUpper c ≠ 'T')
    (r : http.Request) :
    routeKey env r ∈ skipRoutes ↔
      r.Method ∈ ["GET", "GEt", "GeT", "Get", "gET", "gEt", "geT", "get"] ∧
        r.URL.Path = "/health" := by
  rw [← strings.ToUpper_eq_GET env.unicodeToUpper hU]
  simp only [skipRoutes, routeKey, List.mem_singleton]
  constructor
  · intro h
    have h2 := congrArg String.data h
    simp only [String.data_append] at h2
    have h3 := routeKey_split _ _ (by simpa using h2)
    exact ⟨String.ext h3.1, String.ext h3.2⟩
  · rintro ⟨h1, h2⟩
    rw [h1, h2]
    rfl

end middleware

/-!
### The claims on the middleware
-/

namespace middleware

open http

theorem unicodeToUpper_scenario (c : Char) (h : 128 ≤ c.toNat) :
    scenario.unicodeToUpper c ≠ 'G' ∧ scenario.unicodeToUpper c ≠ 'E' ∧
      scenario.unicodeToUpper c ≠ 'T' := by
  unfold scenario.unicodeToUpper
  split_ifs
  · decide
  · decide
  · rw [strings.asciiUpper_of_ge c h]
    refine ⟨?_, ?_, ?_⟩ <;> (rintro rfl; revert h; decide)

/-- The units of work a call of the middleware starts: none for a skipped request, one
with the event for any other. -/
theorem spawned_eq {σ : Type} (env : Env) (serviceName : String) (next : Handler)
    (W : ResponseWriter σ) (w : σ) (r : Request) :
    (LoggingMiddleware env serviceName next W w r).spawned =
      if routeKey env r ∈ skipRoutes then []
      else [⟨context.Background, buildEvent env serviceName (restoreBody r) (readBody r)
        ((next (restoreBody r)).run (responseRecorder.writer W) (newRecorder w))⟩] := by
  unfold LoggingMiddleware
  split_ifs <;> rfl

/-- C8: the middleware makes no publish attempt for a request whose key
`UPPERCASE(method) + "::" + path` is in the skip set and exactly one for any other request,
whatever the handler does; with the shipped set the skipped requests are exactly those
whose method is a spelling of GET in any letter case and whose path is `/health`.  The
Unicode case table is a parameter: no character beyond ASCII has `G`, `E` or `T` as its
upper case. -/
theorem LoggingMiddleware_publish_attempts {σ π : Type} (env : Env) (serviceName : String)
    (next : Handler) (W : ResponseWriter σ) (w : σ) (r : Request)
    (client : pubsub.Publisher π) (p : π)
    (hU : ∀ c : Char, 128 ≤ c.toNat →
      env.unicodeToUpper c ≠ 'G' ∧ env.unicodeToUpper c ≠ 'E' ∧ env.unicodeToUpper c ≠ 'T') :
    (runAll client.spy (p, []) (LoggingMiddleware env serviceName next W w r).spawned).2.length
        = (if routeKey env r ∈ skipRoutes then 0 else 1) ∧
      (routeKey env r ∈ skipRoutes ↔
        r.Method ∈ ["GET", "GEt", "GeT", "Get", "gET", "gEt", "geT", "get"] ∧
          r.URL.Path = "/health") := by
  refine ⟨?_, routeKey_mem_skipRoutes env hU r⟩
  rw [spawned_eq]
  split_ifs
  · rfl
  · simp only [runAll, List.foldl_cons, List.foldl_nil, sendToPubSub]
    split <;> rfl

/-- The claim C8 at the requests `GET /health` and `get /health` (no attempt) and at
`GET /health/`, `GET /healthz` and `POST /health` (one attempt each), with a publisher that
fails. -/
theorem LoggingMiddleware_publish_attempts_witness :
    ((runAll (pubsub.Publisher.spy ⟨fun p _ _ => (p, some "unavailable"), fun p => (p, none)⟩)
        ((), []) (LoggingMiddleware scenario.env "svc" scenario.healthHandler acceptAll ([], 0)
          (scenario.request "GET" "/health" none)).spawned).2.length = 0 ∧
      (runAll (pubsub.Publisher.spy ⟨fun p _ _ => (p, some "unavailable"), fun p => (p, none)⟩)
        ((), []) (LoggingMiddleware scenario.env "svc" scenario.healthHandler acceptAll ([], 0)
          (scenario.request "get" "/health" none)).spawned).2.length = 0) ∧
    ((runAll (pubsub.Publisher.spy ⟨fun p _ _ => (p, some "unavailable"), fun p => (p, none)⟩)
        ((), []) (LoggingMiddleware scenario.env "svc" scenario.healthHandler acceptAll ([], 0)
          (scenario.request "GET" "/health/" none)).spawned).2.length = 1 ∧
      (runAll (pubsub.Publisher.spy ⟨fun p _ _ => (p, some "unavailable"), fun p => (p, none)⟩)
        ((), []) (LoggingMiddleware scenario.env "svc" scenario.healthHandler acceptAll ([], 0)
          (scenario.request "GET" "/healthz" none)).spawned).2.length = 1 ∧
      (runAll (pubsub.Publisher.spy ⟨fun p _ _ => (p, some "unavailable"), fun p => (p, none)⟩)
        ((), []) (LoggingMiddleware scenario.env "svc" scenario.healthHandler acceptAll ([], 0)
          (scenario.request "POST" "/health" none)).spawned).2.length = 1) :=
  ⟨⟨(LoggingMiddleware_publish_attempts scenario.env "svc" scenario.healthHandler acceptAll
        ([], 0) (scenario.request "GET" "/health" none) _ () unicodeToUpper_scenario).1.trans
      (by decide),
    (LoggingMiddleware_publish_attempts scenario.env "svc" scenario.healthHandler acceptAll
        ([], 0) (scenario.request "get" "/health" none) _ () unicodeToUpper_scenario).1.trans
      (by decide)⟩,
   ⟨(LoggingMiddleware_publish_attempts scenario.env "svc" scenario.healthHandler acceptAll
        ([], 0) (scenario.request "GET" "/health/" none) _ () unicodeToUpper_scenario).1.trans
      (by decide),
    (LoggingMiddleware_publish_attempts scenario.env "svc" scenario.healthHandler acceptAll
        ([], 0) (scenario.request "GET" "/healthz" none) _ () unicodeToUpper_scenario).1.trans
      (by decide),
    (LoggingMiddleware_publish_attempts scenario.env "svc" scenario.healthHandler acceptAll
        ([], 0) (scenario.request "POST" "/health" none) _ () unicodeToUpper_scenario).1.trans
      (by decide)⟩⟩

end middleware

namespace middleware

open http

/-- The length of a Go string is positive exactly when the string is not empty. -/
theorem utf8ByteSize_pos_iff (s : String) : s.utf8ByteSize > 0 ↔ s ≠ "" := by
  obtain ⟨l⟩ := s
  cases l with
  | nil => simp [String.utf8ByteSize, String.utf8ByteSize.go]
  | cons c cs =>
    have hc := Char.utf8Size_pos c
    have hne : (String.mk (c :: cs)) ≠ "" := by
      intro h
      have := congrArg String.data h
      simp at this
    simp only [String.utf8ByteSize, String.utf8ByteSize.go, gt_iff_lt, ne_eq, hne,
      not_false_eq_true, iff_true]
    omega

/-- The body the recorder has captured when the handler returns: the slices the handler
wrote, in order. -/
theorem recorder_run_body {σ : Type} (W : ResponseWriter σ) (p : Steps) (w : σ) :
    (p.run (responseRecorder.writer W) (newRecorder w)).body = (writes (p.trace W w)).flatten := by
  rw [run_eq_calls, (recorder_calls W _ _).1, trace_recorder]
  simp [newRecorder]

/-- C9: for a request that is not skipped the middleware starts one unit of work, whose
event carries as request body `MaskSensitiveData` of the bytes read from the request body
and as response body `MaskSensitiveData` of all the bytes the handler wrote.  In the
scenario `POST /v1/items` with the body `{"email":"a@b.com","password":"x"}`, answered
with `{"id":"1","email":"a@b.com"}` at status 201, the one event has the response code 201,
a request body containing `"email":"***REDACTED***"` and `"password":"***REDACTED***"`, and
a response body containing `"email":"***REDACTED***"`. -/
theorem LoggingMiddleware_event_bodies {σ : Type} (env : Env) (serviceName : String)
    (next : Handler) (W : ResponseWriter σ) (w : σ) (r : Request)
    (h : routeKey env r ∉ skipRoutes) :
    (∃ g, (LoggingMiddleware env serviceName next W w r).spawned = [g] ∧
      g.logData.RequestBody.String = utils.MaskSensitiveData env.json (readBody r) ∧
      g.logData.ResponseBody.String = utils.MaskSensitiveData env.json
        (writes ((next (restoreBody r)).trace W w)).flatten) ∧
    (∃ g, (LoggingMiddleware scenario.env serviceName scenario.createHandler W w
        scenario.createRequest).spawned = [g] ∧
      g.logData.ResponseCode = 201 ∧
      g.logData.RequestBody = ⟨refjson.ascii
        "\x7b\"email\":\"***REDACTED***\",\"password\":\"***REDACTED***\"\x7d", true⟩ ∧
      g.logData.ResponseBody = ⟨refjson.ascii
        "\x7b\"email\":\"***REDACTED***\",\"id\":\"1\"\x7d", true⟩ ∧
      refjson.ascii "\"email\":\"***REDACTED***\"" <:+: g.logData.RequestBody.String ∧
      refjson.ascii "\"password\":\"***REDACTED***\"" <:+: g.logData.RequestBody.String ∧
      refjson.ascii "\"email\":\"***REDACTED***\"" <:+: g.logData.ResponseBody.String) := by
  constructor
  · refine ⟨_, by rw [spawned_eq, if_neg h], rfl, ?_⟩
    simp only [buildEvent, null.NewString]
    rw [recorder_run_body]
  · refine ⟨_, by rw [spawned_eq, if_neg (by decide)], rfl, by rfl, by rfl, ?_, ?_, ?_⟩
    · exact ⟨refjson.ascii "\x7b", refjson.ascii ",\"password\":\"***REDACTED***\"\x7d", by rfl⟩
    · exact ⟨refjson.ascii "\x7b\"email\":\"***REDACTED***\",", refjson.ascii "\x7d", by rfl⟩
    · exact ⟨refjson.ascii "\x7b", refjson.ascii ",\"id\":\"1\"\x7d", by rfl⟩

/-- The claim C9 at the request and the handler of
`TestLoggingMiddleware_CapturesRequestResponse`: a body without sensitive key is logged as
the library lays it out. -/
theorem LoggingMiddleware_event_bodies_witness :
    ∃ g, (LoggingMiddleware scenario.env "test-service"
        (fun _ => .WriteHeader 200
          (.Write (refjson.ascii "\x7b\"result\":\"success\"\x7d") (fun _ => .done)))
        acceptAll ([], 0)
        { scenario.createRequest with
          Body := some ⟨refjson.ascii "\x7b\"name\":\"test\"\x7d", none⟩ }).spawned = [g] ∧
      g.logData.RequestBody.String = refjson.ascii "\x7b\"name\":\"test\"\x7d" ∧
      g.logData.ResponseBody.String = refjson.ascii "\x7b\"result\":\"success\"\x7d" :=
  (LoggingMiddleware_event_bodies scenario.env "test-service"
    (fun _ => .WriteHeader 200
      (.Write (refjson.ascii "\x7b\"result\":\"success\"\x7d") (fun _ => .done)))
    acceptAll ([], 0)
    { scenario.createRequest with
      Body := some ⟨refjson.ascii "\x7b\"name\":\"test\"\x7d", none⟩ } (by decide)).1.imp
    (fun _ hg => ⟨hg.1, hg.2.1.trans (by rfl), hg.2.2.trans (by rfl)⟩)

/-- C10: for a request that is not skipped the one event has the configured service name,
the method and the URL of the request, the status code of the recorder, the name and the
version the route extractor returns, the request and user identifiers read from the request
context; each of the four optional fields is set exactly when its string is not empty, so
none is carried as an empty string. -/
theorem LoggingMiddleware_event_fields {σ : Type} (env : Env) (serviceName : String)
    (next : Handler) (W : ResponseWriter σ) (w : σ) (r : Request)
    (h : routeKey env r ∉ skipRoutes) :
    ∃ g, (LoggingMiddleware env serviceName next W w r).spawned = [g] ∧
      g.logData.Service = serviceName ∧
      g.logData.Method = r.Method ∧
      g.logData.URL = r.URL.String ∧
      g.logData.ResponseCode =
        ((next (restoreBody r)).run (responseRecorder.writer W) (newRecorder w)).statusCode ∧
      (g.logData.Name, g.logData.Version) = extractRouteVersionAndName r.route ∧
      g.logData.RequestID.String = utils.GetRequestID r.Context ∧
      g.logData.UserID.String = utils.GetUserID r.Context ∧
      (g.logData.RequestID.Valid = true ↔ g.logData.RequestID.String ≠ "") ∧
      (g.logData.UserID.Valid = true ↔ g.logData.UserID.String ≠ "") ∧
      (g.logData.RequestBody.Valid = true ↔ g.logData.RequestBody.String ≠ []) ∧
      (g.logData.ResponseBody.Valid = true ↔ g.logData.ResponseBody.String ≠ []) ∧
      null.Ptr g.logData.RequestID ≠ some "" ∧
      null.Ptr g.logData.UserID ≠ some "" ∧
      null.Ptr g.logData.RequestBody ≠ some [] ∧
      null.Ptr g.logData.ResponseBody ≠ some [] := by
  have hr : ∀ r : Request, (restoreBody r).Method = r.Method ∧ (restoreBody r).URL = r.URL ∧
      (restoreBody r).ctx = r.ctx ∧ (restoreBody r).route = r.route := by
    intro r
    obtain ⟨m, u, hd, b, c, rt⟩ := r
    cases b <;> exact ⟨rfl, rfl, rfl, rfl⟩
  obtain ⟨h1, h2, h3, h4⟩ := hr r
  have hptr : ∀ (s : String), null.Ptr (null.NewString s (decide (s.utf8ByteSize > 0)))
      ≠ some "" := by
    intro s
    unfold null.Ptr null.NewString
    split_ifs with hv
    · simp only [decide_eq_true_eq] at hv
      have := (utf8ByteSize_pos_iff s).1 hv
      simpa using this
    · simp
  have hptrB : ∀ (b : Bytes), null.Ptr (null.NewString b (decide (b.length > 0)))
      ≠ some [] := by
    intro b
    unfold null.Ptr null.NewString
    split_ifs with hv
    · simp only [decide_eq_true_eq] at hv
      have : b ≠ [] := by rintro rfl; simp at hv
      simpa using this
    · simp
  refine ⟨_, by rw [spawned_eq, if_neg h], rfl, ?_, ?_, rfl, ?_, ?_, ?_, ?_, ?_, ?_, ?_,
    ?_, ?_, ?_, ?_⟩
  · exact h1
  · simp only [buildEvent, h2]
  · simp only [buildEvent, h4]
  · simp only [buildEvent, null.NewString, Request.Context, h3]
  · simp only [buildEvent, null.NewString, Request.Context, h3]
  · simp only [buildEvent, null.NewString, decide_eq_true_eq]
    exact utf8ByteSize_pos_iff _
  · simp only [buildEvent, null.NewString, decide_eq_true_eq]
    exact utf8ByteSize_pos_iff _
  · simp only [buildEvent, null.NewString, decide_eq_true_eq]
    exact List.length_pos
  · simp only [buildEvent, null.NewString, decide_eq_true_eq]
    exact List.length_pos
  · exact hptr _
  · exact hptr _
  · exact hptrB _
  · exact hptrB _

/-- The claim C10 at the scenario request: the route `create_item` under `/v1`, a request
identifier and no user identifier in the context. -/
theorem LoggingMiddleware_event_fields_witness :
    ∃ g, (LoggingMiddleware scenario.env "test-service" scenario.createHandler acceptAll
        ([], 0) scenario.createRequest).spawned = [g] ∧
      g.logData.Service = "test-service" ∧ g.logData.Method = "POST" ∧
      g.logData.URL = "/v1/items" ∧ g.logData.ResponseCode = 201 ∧
      (g.logData.Name, g.logData.Version) = ("create_item", "v1") ∧
      null.Ptr g.logData.RequestID = some "req-789" ∧
      null.Ptr g.logData.UserID = none :=
  (LoggingMiddleware_event_fields scenario.env "test-service" scenario.createHandler
    acceptAll ([], 0) scenario.createRequest (by decide)).imp
    (fun g hg => ⟨hg.1, hg.2.1, hg.2.2.1, hg.2.2.2.1, hg.2.2.2.2.1.trans (by rfl),
      hg.2.2.2.2.2.1.trans (by rfl),
      by
        have e := List.cons.inj (hg.1.symm.trans (spawned_eq _ _ _ _ _ _)) |>.1
        subst e
        rfl,
      by
        have e := List.cons.inj (hg.1.symm.trans (spawned_eq _ _ _ _ _ _)) |>.1
        subst e
        rfl⟩)

end middleware

/-!
## The event on the wire
-/

namespace logger

theorem encodeStruct_keys (fs : List encoding.Field) (data : List (String × encoding.Value))
    (h : encoding.encodeStruct fs = some data) (f : encoding.Field) (hf : f ∈ fs)
    (hkeep : (f.omitempty && f.isEmptyValue) = false) :
    ∃ v, f.value = some v ∧ (f.name, v) ∈ data := by
  induction fs generalizing data with
  | nil => simp at hf
  | cons g rest ih =>
    unfold encoding.encodeStruct at h
    rcases List.mem_cons.1 hf with rfl | hmem
    · rw [hkeep] at h
      simp only [Bool.false_eq_true, if_false] at h
      cases hv : f.value with
      | none => simp [hv] at h
      | some v =>
        cases hr : encoding.encodeStruct rest with
        | none => simp [hv, hr] at h
        | some members =>
          simp only [hv, hr, Option.some.injEq] at h
          exact ⟨v, rfl, h ▸ List.mem_cons_self _ _⟩
    · by_cases hg : (g.omitempty && g.isEmptyValue) = true
      · rw [if_pos hg] at h
        exact ih data h hmem
      · rw [if_neg hg] at h
        cases hv : g.value with
        | none => simp [hv] at h
        | some v =>
          cases hr : encoding.encodeStruct rest with
          | none => simp [hv, hr] at h
          | some members =>
            simp only [hv, hr, Option.some.injEq] at h
            obtain ⟨w, hw, hin⟩ := ih members hr hmem
            exact ⟨w, hw, h ▸ List.mem_cons_of_mem _ hin⟩

theorem encodeStruct_values (fs : List encoding.Field) (data : List (String × encoding.Value))
    (h : encoding.encodeStruct fs = some data) (k : String) (v : encoding.Value)
    (hin : (k, v) ∈ data) : ∃ f ∈ fs, f.name = k ∧ f.value = some v := by
  induction fs generalizing data with
  | nil =>
    simp only [encoding.encodeStruct, Option.some.injEq] at h
    subst h
    simp at hin
  | cons g rest ih =>
    unfold encoding.encodeStruct at h
    by_cases hg : (g.omitempty && g.isEmptyValue) = true
    · rw [if_pos hg] at h
      obtain ⟨f, hf, hn, hv⟩ := ih data h hin
      exact ⟨f, List.mem_cons_of_mem _ hf, hn, hv⟩
    · rw [if_neg hg] at h
      cases hv : g.value with
      | none => simp [hv] at h
      | some w =>
        cases hr : encoding.encodeStruct rest with
        | none => simp [hv, hr] at h
        | some members =>
          simp only [hv, hr, Option.some.injEq] at h
          subst h
          rcases List.mem_cons.1 hin with heq | hmem
          · have h1 : k = g.name := congrArg Prod.fst heq
            have h2 : v = w := congrArg Prod.snd heq
            exact ⟨g, List.mem_cons_self _ _, h1.symm, by rw [hv, h2]⟩
          · obtain ⟨f, hf, hn, hv2⟩ := ih members hr hmem
            exact ⟨f, List.mem_cons_of_mem _ hf, hn, hv2⟩

/-- The claim C11 as it is stated fails: the event whose optional fields are all unset is
written with the four keys `request_id`, `response_body`, `request_body` and `user_id`, each
with the value `null`. -/
theorem Marshal_keeps_absent_fields :
    ∃ data, scenario.bareEvent.Marshal = some data ∧
      ("request_id", encoding.Value.null) ∈ data ∧
      ("response_body", encoding.Value.null) ∈ data ∧
      ("request_body", encoding.Value.null) ∈ data ∧
      ("user_id", encoding.Value.null) ∈ data ∧
      ¬ scenario.bareEvent.omitsAbsent data := by
  refine ⟨_, by rfl, by decide, by decide, by decide, by decide, ?_⟩
  intro h
  exact h.1 rfl (by decide)

/-- C11, amended: `PublishAPILogEvent` hands the topic the object `json.Marshal` writes for
the event, and in that object the keys `request_id`, `service`, `url`,
`method`, `response_code`, `duration`, `version`, `name` and `created_at` are always
there; `request_id` has the value `null` when the field is not set; no optional field that
is not set is written as an empty string. -/
theorem Marshal_keys (e : APILogEvent) (data : List (String × encoding.Value))
    (h : e.Marshal = some data) :
    (∀ (τ : Type) (topic : pubsub.Topic τ) (t : τ) (ctx : context.Context),
        (pubsub.Client.PublishAPILogEvent topic t ctx e).1 = topic.Publish t ctx data) ∧
      (∀ k ∈ ["request_id", "service", "url", "method", "response_code", "duration",
        "version", "name", "created_at"], k ∈ data.map Prod.fst) ∧
      (e.RequestID.Valid = false → ("request_id", encoding.Value.null) ∈ data ∧
        ∀ v, ("request_id", v) ∈ data → v = .null) ∧
      (e.RequestID.Valid = false → ("request_id", encoding.Value.string "") ∉ data) ∧
      (e.UserID.Valid = false → ("user_id", encoding.Value.string "") ∉ data) ∧
      (e.RequestBody.Valid = false → ("request_body", encoding.Value.bytes []) ∉ data) ∧
      (e.ResponseBody.Valid = false → ("response_body", encoding.Value.bytes []) ∉ data) := by
  have hk : ∀ f ∈ e.fields, (f.omitempty && f.isEmptyValue) = false →
      f.name ∈ data.map Prod.fst := by
    intro f hf hkeep
    obtain ⟨v, _, hin⟩ := encodeStruct_keys e.fields data h f hf hkeep
    exact List.mem_map_of_mem Prod.fst hin
  have hval : ∀ k v, (k, v) ∈ data → ∃ f ∈ e.fields, f.name = k ∧ f.value = some v :=
    encodeStruct_values e.fields data h
  have hname : ∀ (k : String) (w : encoding.Value),
      (∀ f ∈ e.fields, f.name = k → f.value = some w) →
      ∀ v, (k, v) ∈ data → v = w := by
    intro k w hall v hin
    obtain ⟨f, hf, hn, hv⟩ := hval k v hin
    have := hall f hf hn
    rw [hv] at this
    exact Option.some.inj this
  have hreq : ∀ f ∈ e.fields, f.name = "request_id" →
      f.value = some (null.MarshalJSON .string e.RequestID) := by
    intro f hf hn
    simp only [APILogEvent.fields, List.mem_cons, List.mem_singleton, List.not_mem_nil,
      or_false] at hf
    rcases hf with rfl | rfl | rfl | rfl | rfl | rfl | rfl | rfl | rfl | rfl | rfl | rfl <;>
      first | rfl | (simp at hn)
  have huser : ∀ f ∈ e.fields, f.name = "user_id" →
      f.value = some (null.MarshalJSON .string e.UserID) := by
    intro f hf hn
    simp only [APILogEvent.fields, List.mem_cons, List.mem_singleton, List.not_mem_nil,
      or_false] at hf
    rcases hf with rfl | rfl | rfl | rfl | rfl | rfl | rfl | rfl | rfl | rfl | rfl | rfl <;>
      first | rfl | (simp at hn)
  have hreqb : ∀ f ∈ e.fields, f.name = "request_body" →
      f.value = some (null.MarshalJSON .bytes e.RequestBody) := by
    intro f hf hn
    simp only [APILogEvent.fields, List.mem_cons, List.mem_singleton, List.not_mem_nil,
      or_false] at hf
    rcases hf with rfl | rfl | rfl | rfl | rfl | rfl | rfl | rfl | rfl | rfl | rfl | rfl <;>
      first | rfl | (simp at hn)
  have hresb : ∀ f ∈ e.fields, f.name = "response_body" →
      f.value = some (null.MarshalJSON .bytes e.ResponseBody) := by
    intro f hf hn
    simp only [APILogEvent.fields, List.mem_cons, List.mem_singleton, List.not_mem_nil,
      or_false] at hf
    rcases hf with rfl | rfl | rfl | rfl | rfl | rfl | rfl | rfl | rfl | rfl | rfl | rfl <;>
      first | rfl | (simp at hn)
  have hnull : ∀ {α : Type} (enc : α → encoding.Value) (s : NullString α),
      s.Valid = false → null.MarshalJSON enc s = .null := by
    intro α enc s hs
    simp [null.MarshalJSON, hs]
  have hpub : ∀ (τ : Type) (topic : pubsub.Topic τ) (t : τ) (ctx : context.Context),
      (pubsub.Client.PublishAPILogEvent topic t ctx e).1 = topic.Publish t ctx data := by
    intro τ topic t ctx
    unfold pubsub.Client.PublishAPILogEvent
    rw [h]
    dsimp only
    split
    · rename_i err herr
      exact Prod.ext rfl herr.symm
    · rename_i herr
      exact Prod.ext rfl herr.symm
  refine ⟨hpub, ?_, ?_, ?_, ?_, ?_, ?_⟩
  · intro k hkmem
    simp only [List.mem_cons, List.mem_singleton, List.not_mem_nil, or_false] at hkmem
    rcases hkmem with rfl | rfl | rfl | rfl | rfl | rfl | rfl | rfl | rfl
    · exact hk ⟨"request_id", false, false, some (null.MarshalJSON .string e.RequestID)⟩
        (by simp [APILogEvent.fields]) rfl
    · exact hk ⟨"service", false, decide (e.Service.utf8ByteSize = 0), some (.string e.Service)⟩
        (by simp [APILogEvent.fields]) rfl
    · exact hk ⟨"url", false, decide (e.URL.utf8ByteSize = 0), some (.string e.URL)⟩
        (by simp [APILogEvent.fields]) rfl
    · exact hk ⟨"method", false, decide (e.Method.utf8ByteSize = 0), some (.string e.Method)⟩
        (by simp [APILogEvent.fields]) rfl
    · exact hk ⟨"response_code", false, decide (e.ResponseCode = 0), some (.int e.ResponseCode)⟩
        (by simp [APILogEvent.fields]) rfl
    · exact hk ⟨"duration", false, decide (e.Duration.mant = 0), some (.float e.Duration)⟩
        (by simp [APILogEvent.fields]) rfl
    · exact hk ⟨"version", false, decide (e.Version.utf8ByteSize = 0), some (.string e.Version)⟩
        (by simp [APILogEvent.fields]) rfl
    · exact hk ⟨"name", false, decide (e.Name.utf8ByteSize = 0), some (.string e.Name)⟩
        (by simp [APILogEvent.fields]) rfl
    · exact hk ⟨"created_at", false, false, encoding.timeMarshalJSON e.CreatedAt⟩
        (by simp [APILogEvent.fields]) rfl
  · intro hv
    constructor
    · obtain ⟨v, hval2, hin⟩ := encodeStruct_keys e.fields data h
        ⟨"request_id", false, false, some (null.MarshalJSON .string e.RequestID)⟩
        (by simp [APILogEvent.fields]) rfl
      rw [hnull _ _ hv] at hval2
      rw [Option.some.inj hval2]
      exact hin
    · intro v hin
      rw [← hnull .string e.RequestID hv]
      exact hname _ _ hreq v hin
  · intro hv hin
    have := hname _ _ hreq _ hin
    rw [hnull _ _ hv] at this
    exact absurd this (by decide)
  · intro hv hin
    have := hname _ _ huser _ hin
    rw [hnull _ _ hv] at this
    exact absurd this (by decide)
  · intro hv hin
    have := hname _ _ hreqb _ hin
    rw [hnull _ _ hv] at this
    exact absurd this (by decide)
  · intro hv hin
    have := hname _ _ hresb _ hin
    rw [hnull _ _ hv] at this
    exact absurd this (by decide)

/-- The amended claim C11 at the event whose optional fields are all unset. -/
theorem Marshal_keys_witness :
    ∃ data, scenario.bareEvent.Marshal = some data ∧
      (∀ k ∈ ["request_id", "service", "url", "method", "response_code", "duration",
        "version", "name", "created_at"], k ∈ data.map Prod.fst) ∧
      ("request_id", encoding.Value.null) ∈ data ∧
      ("user_id", encoding.Value.string "") ∉ data :=
  ⟨_, rfl, (Marshal_keys scenario.bareEvent _ rfl).2.1,
    ((Marshal_keys scenario.bareEvent _ rfl).2.2.1 rfl).1,
    (Marshal_keys scenario.bareEvent _ rfl).2.2.2.2.1 rfl⟩

end logger

/-!
## The route extractor
-/

namespace strings

theorem takeWhile_append_of_all {α : Type} (q : α → Bool) (r s : List α)
    (hs : ∀ x ∈ s, q x = false) : (r ++ s).takeWhile q = r.takeWhile q := by
  induction r with
  | nil =>
    cases s with
    | nil => rfl
    | cons x xs => simp [List.takeWhile, hs x (List.mem_cons_self _ _)]
  | cons a r ih =>
    simp only [List.cons_append, List.takeWhile]
    cases q a <;> simp [ih]

/-- Dropping the trailing characters that satisfy `p` leaves what stands before the first
of them as it is. -/
theorem takeWhile_trimRight {α : Type} (p q : α → Bool) (hpq : ∀ x, p x = true → q x = false)
    (l : List α) : ((l.reverse.dropWhile p).reverse).takeWhile q = l.takeWhile q := by
  have hsplit : l = (l.reverse.dropWhile p).reverse ++ (l.reverse.takeWhile p).reverse := by
    have := congrArg List.reverse (List.takeWhile_append_dropWhile p l.reverse)
    rw [List.reverse_append, List.reverse_reverse] at this
    exact this.symm
  have hall : ∀ x ∈ (l.reverse.takeWhile p).reverse, q x = false := by
    intro x hx
    exact hpq x (List.mem_takeWhile_imp (List.mem_reverse.1 hx))
  conv_rhs => rw [hsplit]
  rw [takeWhile_append_of_all q _ _ hall]

theorem splitAux_head (sep : Char) (l cur : List Char) :
    (splitAux sep l cur).head? =
      some (String.mk (cur.reverse ++ l.takeWhile (fun c => c ≠ sep))) := by
  induction l generalizing cur with
  | nil => simp [splitAux]
  | cons c rest ih =>
    unfold splitAux
    by_cases h : c = sep
    · simp [h]
    · rw [if_neg h, ih]
      simp [List.takeWhile, h]

/-- The first piece of a trimmed and split path template is its first segment. -/
theorem Split_Trim_head (tpl : String) :
    (Split (Trim tpl "/") '/').head? =
      some (String.mk ((tpl.data.dropWhile (fun c => c = '/')).takeWhile (fun c => c ≠ '/'))) := by
  have hf : (fun c : Char => ("/" : String).data.contains c) = (fun c => decide (c = '/')) := by
    funext c
    simp only [List.contains, List.elem]
    cases hc : (c == '/') <;> simp_all
  unfold Split Trim
  rw [splitAux_head, hf]
  simp only [List.reverse_nil, List.nil_append]
  rw [takeWhile_trimRight (fun c => decide (c = '/')) (fun c => decide (c ≠ '/'))
    (by intro x hx; simpa using hx)]

end strings

namespace middleware

theorem HasPrefix_v (s : String) :
    strings.HasPrefix s "v" = true ↔ s.data.head? = some 'v' := by
  unfold strings.HasPrefix
  cases h : s.data with
  | nil => simp [List.isPrefixOf]
  | cons c rest =>
    have : ("v" : String).data = ['v'] := rfl
    rw [this]
    simp only [List.isPrefixOf, List.head?_cons, Bool.and_true, beq_iff_eq, Option.some.injEq]
    exact eq_comm

/-- The two results of the extractor in terms of the first segment of the template. -/
theorem extract_eq (route : mux.Route) :
    extractRouteVersionAndName (some route) =
      (route.GetName,
        if strings.HasPrefix (firstSegment route.GetPathTemplate.1) "v" then
          firstSegment route.GetPathTemplate.1
        else "") := by
  have hhead := strings.Split_Trim_head route.GetPathTemplate.1
  unfold extractRouteVersionAndName
  simp only
  cases hparts : strings.Split (strings.Trim route.GetPathTemplate.1 "/") '/' with
  | nil => rw [hparts] at hhead; simp at hhead
  | cons part rest =>
    rw [hparts] at hhead
    simp only [List.head?_cons, Option.some.injEq] at hhead
    simp only [firstSegment, ← hhead]
    split <;> rfl

/-- The claim C12 as it is stated fails: for the path template `/v` the extractor returns
the version `v`, a segment in which nothing follows the letter. -/
theorem version_of_bare_v :
    (extractRouteVersionAndName (some ⟨"root", some "/v"⟩)).2 = "v" ∧
      versionAsClaimed (firstSegment "/v") = "" ∧
      (extractRouteVersionAndName (some ⟨"root", some "/v"⟩)).2 ≠
        versionAsClaimed (firstSegment "/v") := by
  decide

/-- C12, amended: for every route the extractor returns as version the first segment of
the path template when that segment starts with the letter v, the segment `v` alone
included, and the empty string otherwise; `/v1/items` gives `v1`, `/v2/users/{id}` gives
`v2`, `/items` gives the empty string. -/
theorem extractRouteVersionAndName_version (route : mux.Route) :
    (extractRouteVersionAndName (some route)).2 =
        (if (firstSegment route.GetPathTemplate.1).data.head? = some 'v' then
          firstSegment route.GetPathTemplate.1
        else "") ∧
      (extractRouteVersionAndName (some ⟨route.name, some "/v1/items"⟩)).2 = "v1" ∧
      (extractRouteVersionAndName (some ⟨route.name, some "/v2/users/\x7bid\x7d"⟩)).2 = "v2" ∧
      (extractRouteVersionAndName (some ⟨route.name, some "/items"⟩)).2 = "" := by
  refine ⟨?_, ?_, ?_, ?_⟩
  · rw [extract_eq]
    by_cases h : (firstSegment route.GetPathTemplate.1).data.head? = some 'v'
    · rw [if_pos h, if_pos ((HasPrefix_v _).2 h)]
    · have : ¬ strings.HasPrefix (firstSegment route.GetPathTemplate.1) "v" = true :=
        fun h2 => h ((HasPrefix_v _).1 h2)
      rw [if_neg h, if_neg this]
  · rw [extract_eq]; rfl
  · rw [extract_eq]; rfl
  · rw [extract_eq]; rfl

/-- C13: the extractor always returns a pair and never an error: both strings are empty
for a nil route, and for every route the name is the declared name of the route, the empty
string when the route has none. -/
theorem extractRouteVersionAndName_name (route : mux.Route) :
    extractRouteVersionAndName none = ("", "") ∧
      (extractRouteVersionAndName (some route)).1 = route.GetName ∧
      (extractRouteVersionAndName (some route)).1 = route.name ∧
      (extractRouteVersionAndName (some ⟨"", route.pathTemplate⟩)).1 = "" := by
  refine ⟨rfl, ?_, ?_, ?_⟩
  · rw [extract_eq]
  · rw [extract_eq]; rfl
  · rw [extract_eq]; rfl

end middleware

/-!
## Request and user identifiers
-/

namespace hex

theorem digit_mem (i : Nat) : hextable.getD i '0' ∈ hextable := by
  by_cases h : i < 16
  · interval_cases i <;> decide
  · rw [List.getD_eq_default _ _ (by simpa [hextable] using Nat.le_of_not_lt h)]
    decide

theorem digit_inj (i j : Nat) (hi : i < 16) (hj : j < 16)
    (h : hextable.getD i '0' = hextable.getD j '0') : i = j := by
  interval_cases i <;> interval_cases j <;> first | rfl | (exact absurd h (by decide))

theorem Encode_length (b : Bytes) : (Encode b).length = 2 * b.length := by
  induction b with
  | nil => rfl
  | cons v rest ih => simp only [Encode, List.length_cons, ih]; omega

theorem Encode_mem (b : Bytes) : ∀ c ∈ Encode b, c ∈ hextable := by
  induction b with
  | nil => intro c hc; simp [Encode] at hc
  | cons v rest ih =>
    intro c hc
    simp only [Encode, List.mem_cons] at hc
    rcases hc with rfl | rfl | hc
    · exact digit_mem _
    · exact digit_mem _
    · exact ih c hc

/-- The hexadecimal text determines the bytes. -/
theorem Encode_inj (a b : Bytes) (h : Encode a = Encode b) : a = b := by
  induction a generalizing b with
  | nil =>
    cases b with
    | nil => rfl
    | cons y ys => simp [Encode] at h
  | cons x xs ih =>
    cases b with
    | nil => simp [Encode] at h
    | cons y ys =>
      simp only [Encode, List.cons.injEq] at h
      obtain ⟨h1, h2, h3⟩ := h
      have hx : x.toNat < 256 := x.val.isLt
      have hy : y.toNat < 256 := y.val.isLt
      have d1 := digit_inj _ _ (by omega) (by omega) h1
      have d2 := digit_inj _ _ (Nat.mod_lt _ (by decide)) (Nat.mod_lt _ (by decide)) h2
      have hxy : x.toNat = y.toNat := by omega
      have : x = y := UInt8.eq_of_val_eq (Fin.ext hxy)
      rw [this, ih ys h3]

theorem utf8ByteSize_of_digits (l : List Char) (h : ∀ c ∈ l, c ∈ hextable) :
    (String.mk l).utf8ByteSize = l.length := by
  have hsize : ∀ c ∈ hextable, c.utf8Size = 1 := by decide
  have hgo : ∀ l : List Char, (∀ c ∈ l, c ∈ hextable) →
      String.utf8ByteSize.go l = l.length := by
    intro l
    induction l with
    | nil => intro _; rfl
    | cons c cs ih =>
      intro hl
      simp only [String.utf8ByteSize.go, List.length_cons]
      rw [ih (fun d hd => hl d (List.mem_cons_of_mem _ hd)),
        hsize c (hl c (List.mem_cons_self _ _))]
  exact hgo l h

end hex

namespace http

theorem lookup_assign (h : Header) (key : String) (vs : List String) :
    (h.assign key vs).lookup key = vs := by
  obtain ⟨entries⟩ := h
  unfold Header.assign Header.lookup
  by_cases hany : (entries.any fun e => decide (e.1 = key)) = true
  · simp only [hany, if_true]
    induction entries with
    | nil => simp at hany
    | cons e rest ih =>
      by_cases he : e.1 = key
      · simp [List.find?, he]
      · have hrest : (rest.any fun e => decide (e.1 = key)) = true := by
          simpa [he] using hany
        simpa [List.find?, he] using ih hrest
  · simp only [hany, Bool.false_eq_true, if_false]
    have hnone : ∀ e ∈ entries, ¬ e.1 = key := by
      intro e he heq
      exact hany (List.any_eq_true.2 ⟨e, he, by simpa using heq⟩)
    have : entries.find? (fun e => decide (e.1 = key)) = none := by
      rw [List.find?_eq_none]
      intro e he
      simpa using hnone e he
    simp [List.find?_append, this]

theorem Get_Set (h : Header) (key value : String) : (h.Set key value).Get key = value := by
  unfold Header.Set Header.Get
  rw [lookup_assign]

theorem Get_eq_Values (h : Header) (key : String) :
    h.Get key = ((h.Values key).head?).getD "" := by
  unfold Header.Get Header.Values
  cases h.lookup (CanonicalMIMEHeaderKey key) <;> rfl

end http

namespace utils

theorem GetRequestID_SetRequestID (ctx : context.Context) (requestID : String) :
    GetRequestID (SetRequestID ctx requestID) = requestID := by
  simp [GetRequestID, SetRequestID, context.WithValue, context.Value]

theorem GetUserID_SetUserID (ctx : context.Context) (userID : String) :
    GetUserID (SetUserID ctx userID) = userID := by
  simp [GetUserID, SetUserID, context.WithValue, context.Value]

theorem GetRequestID_SetUserID (ctx : context.Context) (userID : String) :
    GetRequestID (SetUserID ctx userID) = GetRequestID ctx := by
  have : ¬ userIDKey = requestIDKey := by decide
  simp [GetRequestID, SetUserID, context.WithValue, context.Value, this]

end utils

/-!
### The claims on the identifiers
-/

namespace middleware

open http

/-- C14: `RequestIDMiddleware` takes as request identifier the value of the request header
`X-Request-ID` when it is there and not empty and the result of `GenerateRequestID`
otherwise; it hands the next handler the request with that identifier in its context and
the response header `X-Request-ID` set to it, so the identifier in the context is equal to
the header of the response. -/
theorem RequestIDMiddleware_identifier {σ : Type} (src : rand.Source) (next : Stage σ)
    (w : σ) (header : Header) (r : Request) :
    RequestIDMiddleware src next w header r =
        next w
          (header.Set "X-Request-ID"
            (if r.Header.Get "X-Request-ID" = "" then utils.GenerateRequestID src
             else r.Header.Get "X-Request-ID"))
          (r.WithContext (utils.SetRequestID r.Context
            (if r.Header.Get "X-Request-ID" = "" then utils.GenerateRequestID src
             else r.Header.Get "X-Request-ID"))) ∧
      utils.GetRequestID (r.WithContext (utils.SetRequestID r.Context
          (if r.Header.Get "X-Request-ID" = "" then utils.GenerateRequestID src
           else r.Header.Get "X-Request-ID"))).Context =
        (header.Set "X-Request-ID"
          (if r.Header.Get "X-Request-ID" = "" then utils.GenerateRequestID src
           else r.Header.Get "X-Request-ID")).Get "X-Request-ID" ∧
      (header.Set "X-Request-ID"
          (if r.Header.Get "X-Request-ID" = "" then utils.GenerateRequestID src
           else r.Header.Get "X-Request-ID")).Get "X-Request-ID" =
        (if r.Header.Get "X-Request-ID" = "" then utils.GenerateRequestID src
         else r.Header.Get "X-Request-ID") := by
  refine ⟨rfl, ?_, Get_Set _ _ _⟩
  rw [Get_Set]
  exact utils.GetRequestID_SetRequestID _ _

/-- C16: `UserIDMiddleware` hands the next handler the request with, in its context, the
first value of the request header `X-User-ID` as it was received, or the empty string when
the header is absent; with the values `first-user` and `second-user` it stores
`first-user`. -/
theorem UserIDMiddleware_identifier {σ : Type} (next : Stage σ) (w : σ) (header : Header)
    (r : Request) :
    UserIDMiddleware next w header r =
        next w header (r.WithContext (utils.SetUserID r.Context
          (((r.Header.Values "X-User-ID").head?).getD ""))) ∧
      utils.GetUserID (r.WithContext (utils.SetUserID r.Context
          (((r.Header.Values "X-User-ID").head?).getD ""))).Context =
        ((r.Header.Values "X-User-ID").head?).getD "" ∧
      ((((Header.mk []).Add "X-User-ID" "first-user").Add "X-User-ID" "second-user").Values
          "X-User-ID").head? = some "first-user" ∧
      ((Header.mk []).Values "X-User-ID").head?.getD "" = "" := by
  refine ⟨?_, utils.GetUserID_SetUserID _ _, by decide, by decide⟩
  unfold UserIDMiddleware
  simp only [Get_eq_Values]

end middleware

namespace utils

/-- C15: `GenerateRequestID` returns the empty string when the random source fails, and
otherwise the hexadecimal encoding of the 16 bytes read: 32 characters (and 32 bytes), each
one of `0123456789abcdef`, from which the 16 bytes can be told, so that two identifiers are
equal only if the 16 bytes read were. -/
theorem GenerateRequestID_hex (stream other : Nat → UInt8) :
    GenerateRequestID ⟨true, stream⟩ = "" ∧
      GenerateRequestID ⟨false, stream⟩ = hex.EncodeToString ((List.range 16).map stream) ∧
      (GenerateRequestID ⟨false, stream⟩).length = 32 ∧
      (GenerateRequestID ⟨false, stream⟩).utf8ByteSize = 32 ∧
      (∀ c ∈ (GenerateRequestID ⟨false, stream⟩).data, c ∈ "0123456789abcdef".data) ∧
      (GenerateRequestID ⟨false, stream⟩ = GenerateRequestID ⟨false, other⟩ →
        (List.range 16).map stream = (List.range 16).map other) := by
  have hgen : ∀ s : Nat → UInt8,
      GenerateRequestID ⟨false, s⟩ = String.mk (hex.Encode ((List.range 16).map s)) := by
    intro s
    rfl
  have hlen : (hex.Encode ((List.range 16).map stream)).length = 32 := by
    rw [hex.Encode_length]
    simp
  refine ⟨rfl, rfl, ?_, ?_, ?_, ?_⟩
  · rw [hgen]
    exact hlen
  · rw [hgen, hex.utf8ByteSize_of_digits _ (hex.Encode_mem _), hlen]
  · rw [hgen]
    exact hex.Encode_mem _
  · intro h
    rw [hgen, hgen] at h
    exact hex.Encode_inj _ _ (congrArg String.data h)

/-- The claim C15 at the source that yields the bytes 0, 1, 2 and so on, and at a source
that differs from it after the 16th byte. -/
theorem GenerateRequestID_hex_witness :
    GenerateRequestID scenario.counting = "000102030405060708090a0b0c0d0e0f" ∧
      (List.range 16).map (fun i => i.toUInt8) =
        (List.range 16).map (fun i => if i < 16 then i.toUInt8 else 0) :=
  ⟨by decide,
   (GenerateRequestID_hex (fun i => i.toUInt8) (fun i => if i < 16 then i.toUInt8 else 0)).2.2.2.2.2
     (by decide)⟩

end utils

/-!
### The claims on the response, the chain and the recursion
-/

namespace middleware

open http

/-- Behind the recorder the wrapped writer ends in the state the handler leaves it in when
it runs on it directly. -/
theorem recorder_run_writer {σ : Type} (W : ResponseWriter σ) (p : Steps) (w : σ) :
    (p.run (responseRecorder.writer W) (newRecorder w)).ResponseWriter = p.run W w := by
  rw [run_eq_calls, (recorder_calls W _ _).2.1, trace_recorder, run_eq_calls]
  rfl

/-- The writer after a call of the middleware: the state the handler leaves it in. -/
theorem served_w {σ : Type} (env : Env) (serviceName : String) (next : Handler)
    (W : ResponseWriter σ) (w : σ) (r : Request) :
    (LoggingMiddleware env serviceName next W w r).w =
      (next (if routeKey env r ∈ skipRoutes then r else restoreBody r)).run W w := by
  unfold LoggingMiddleware
  split_ifs
  · rfl
  · exact recorder_run_writer W _ w

/-- C17: what the client receives does not depend on the publisher.  Served with any two
clients, in any state, the writer ends in the same state, the one the handler leaves
it in when it writes to it directly, and the header map is the one the middleware was
given; in the scenario a failing publisher adds one line to the process log and nothing
else. -/
theorem publish_failure_keeps_response {σ π ρ : Type} (client : pubsub.Publisher π) (p : π)
    (other : pubsub.Publisher ρ) (q : ρ) (env : Env) (serviceName : String)
    (next : Handler) (W : ResponseWriter σ) (w : σ) (header : Header) (r : Request) :
    (serveAndPublish client p env serviceName next W w r).1 =
        (serveAndPublish other q env serviceName next W w r).1 ∧
      (serveAndPublish client p env serviceName next W w r).1 =
        (next (if routeKey env r ∈ skipRoutes then r else restoreBody r)).run W w ∧
      (LoggingStage env serviceName next W w header r).header = header ∧
      (serveAndPublish ⟨fun s _ _ => (s, some "unavailable"), fun s => (s, none)⟩ ()
          scenario.env serviceName scenario.createHandler acceptAll ([], 0)
          scenario.createRequest).1 =
        (serveAndPublish ⟨fun s _ _ => (s, none), fun s => (s, none)⟩ ()
          scenario.env serviceName scenario.createHandler acceptAll ([], 0)
          scenario.createRequest).1 ∧
      (serveAndPublish ⟨fun s _ _ => (s, some "unavailable"), fun s => (s, none)⟩ ()
          scenario.env serviceName scenario.createHandler acceptAll ([], 0)
          scenario.createRequest).2.2 =
        ["Failed to publish API log event: unavailable"] ∧
      (serveAndPublish ⟨fun s _ _ => (s, none), fun s => (s, none)⟩ ()
          scenario.env serviceName scenario.createHandler acceptAll ([], 0)
          scenario.createRequest).2.2 = [] := by
  refine ⟨rfl, served_w env serviceName next W w r, rfl, rfl, ?_, ?_⟩
  · simp only [serveAndPublish]
    rw [spawned_eq, if_neg (by decide)]
    rfl
  · simp only [serveAndPublish]
    rw [spawned_eq, if_neg (by decide)]
    rfl

/-- C18: a request that matches the skip rule, served through the chain of the router
(`RequestIDMiddleware`, then `UserIDMiddleware`, then `LoggingMiddleware`), starts no unit
of work; the response header `X-Request-ID` is the effective request identifier; the
handler runs on the client-facing writer with a request whose context carries the request
identifier and the user identifier. -/
theorem skipped_request_keeps_identifiers {σ : Type} (env : Env) (serviceName : String)
    (src : rand.Source) (next : Handler) (W : ResponseWriter σ) (w : σ) (header : Header)
    (r : Request) (hskip : routeKey env r ∈ skipRoutes) :
    (routerChain env serviceName src next W w header r).spawned = [] ∧
      (routerChain env serviceName src next W w header r).header.Get "X-Request-ID" =
        (if r.Header.Get "X-Request-ID" = "" then utils.GenerateRequestID src
         else r.Header.Get "X-Request-ID") ∧
      (routerChain env serviceName src next W w header r).w =
        (next ((r.WithContext (utils.SetRequestID r.Context
          (if r.Header.Get "X-Request-ID" = "" then utils.GenerateRequestID src
           else r.Header.Get "X-Request-ID"))).WithContext
          (utils.SetUserID (utils.SetRequestID r.Context
            (if r.Header.Get "X-Request-ID" = "" then utils.GenerateRequestID src
             else r.Header.Get "X-Request-ID")) (r.Header.Get "X-User-ID")))).run W w ∧
      utils.GetRequestID (utils.SetUserID (utils.SetRequestID r.Context
          (if r.Header.Get "X-Request-ID" = "" then utils.GenerateRequestID src
           else r.Header.Get "X-Request-ID")) (r.Header.Get "X-User-ID")) =
        (if r.Header.Get "X-Request-ID" = "" then utils.GenerateRequestID src
         else r.Header.Get "X-Request-ID") ∧
      utils.GetUserID (utils.SetUserID (utils.SetRequestID r.Context
          (if r.Header.Get "X-Request-ID" = "" then utils.GenerateRequestID src
           else r.Header.Get "X-Request-ID")) (r.Header.Get "X-User-ID")) =
        r.Header.Get "X-User-ID" := by
  have hkey : ∀ c1 c2 : context.Context,
      routeKey env ((r.WithContext c1).WithContext c2) ∈ skipRoutes := fun _ _ => hskip
  refine ⟨?_, ?_, ?_, ?_, utils.GetUserID_SetUserID _ _⟩
  · simp only [routerChain, RequestIDMiddleware, UserIDMiddleware, LoggingStage]
    rw [spawned_eq, if_pos (hkey _ _)]
  · simp only [routerChain, RequestIDMiddleware, UserIDMiddleware, LoggingStage]
    exact Get_Set _ _ _
  · simp only [routerChain, RequestIDMiddleware, UserIDMiddleware, LoggingStage]
    rw [served_w, if_pos (hkey _ _)]
    rfl
  · rw [utils.GetRequestID_SetUserID, utils.GetRequestID_SetRequestID]

/-- The claim C18 at the request `GET /health` with the request identifier
`existing-req-id-123` and the user identifiers `first-user` and `second-user` in its
headers. -/
theorem skipped_request_keeps_identifiers_witness :
    (routerChain scenario.env "svc" scenario.counting scenario.healthHandler acceptAll
        ([], 0) ⟨[]⟩ scenario.healthRequest).spawned = [] ∧
      (routerChain scenario.env "svc" scenario.counting scenario.healthHandler acceptAll
        ([], 0) ⟨[]⟩ scenario.healthRequest).header.Get "X-Request-ID" =
        "existing-req-id-123" ∧
      (routerChain scenario.env "svc" scenario.counting scenario.healthHandler acceptAll
        ([], 0) ⟨[]⟩ scenario.healthRequest).w =
        (refjson.ascii "\x7b\"status\":\"ok\"\x7d", 200) :=
  ⟨(skipped_request_keeps_identifiers scenario.env "svc" scenario.counting
      scenario.healthHandler acceptAll ([], 0) ⟨[]⟩ scenario.healthRequest (by decide)).1,
   (skipped_request_keeps_identifiers scenario.env "svc" scenario.counting
      scenario.healthHandler acceptAll ([], 0) ⟨[]⟩ scenario.healthRequest
      (by decide)).2.1.trans (by decide),
   (skipped_request_keeps_identifiers scenario.env "svc" scenario.counting
      scenario.healthHandler acceptAll ([], 0) ⟨[]⟩ scenario.healthRequest
      (by decide)).2.2.1.trans (by rfl)⟩

end middleware

namespace utils

open JSON

/-- With room for more frames than the value is deep, the bounded run of `maskJSON`
returns, and returns what `maskJSON` returns. -/
theorem maskJSONWithin_of_depth_lt (frames : Nat) :
    ∀ v : JSON, v.depth < frames → maskJSONWithin frames v = some (maskJSON v) := by
  induction frames with
  | zero => intro v h; omega
  | succ n ih =>
    have hmap : ∀ (todo acc : List (String × JSON)), depthEntries todo < n →
        rangeMapWith (maskJSONWithin n) todo acc = some (maskJSON.rangeMap todo acc) := by
      intro todo
      induction todo with
      | nil => intro acc _; rfl
      | cons e rest ihr =>
        intro acc hd
        obtain ⟨k, val⟩ := e
        simp only [depthEntries] at hd
        have h1 : val.depth < n := lt_of_le_of_lt (le_max_left _ _) hd
        have h2 : depthEntries rest < n := lt_of_le_of_lt (le_max_right _ _) hd
        by_cases hs : k ∈ sensitiveKeys
        · simp only [rangeMapWith, maskJSON.rangeMap, hs, if_true]
          exact ihr _ h2
        · simp only [rangeMapWith, maskJSON.rangeMap, hs, if_false, ih val h1]
          exact ihr _ h2
    have hslice : ∀ (todo : List JSON) (i : Nat) (acc : List JSON), depthElems todo < n →
        rangeSliceWith (maskJSONWithin n) todo i acc =
          some (maskJSON.rangeSlice todo i acc) := by
      intro todo
      induction todo with
      | nil => intro i acc _; rfl
      | cons val rest ihr =>
        intro i acc hd
        simp only [depthElems] at hd
        have h1 : val.depth < n := lt_of_le_of_lt (le_max_left _ _) hd
        have h2 : depthElems rest < n := lt_of_le_of_lt (le_max_right _ _) hd
        simp only [rangeSliceWith, maskJSON.rangeSlice, ih val h1]
        exact ihr _ _ h2
    intro v hv
    cases v with
    | obj m =>
      simp only [depth] at hv
      simp only [maskJSONWithin, maskJSON, hmap m m (by omega), Option.map_some']
    | arr xs =>
      simp only [depth] at hv
      simp only [maskJSONWithin, maskJSON, hslice xs 0 xs (by omega), Option.map_some']
    | null => rfl
    | bool b => rfl
    | num f => rfl
    | str s => rfl

/-- C19: `maskJSON` is total.  It is defined by recursion on the structure of the value,
and run with room for one more frame than the value is deep, or for any number of frames
beyond that, it returns its result: the nesting of its calls never exceeds the nesting of
the value, whatever that is. -/
theorem maskJSON_total (v : JSON) (spare : Nat) :
    maskJSONWithin (v.depth + 1 + spare) v = some (maskJSON v) :=
  maskJSONWithin_of_depth_lt _ v (by omega)

end utils

/-!
### The claims on the context, the request body and the key match
-/

namespace utils

open JSON

theorem GetUserID_SetRequestID (ctx : context.Context) (requestID : String) :
    GetUserID (SetRequestID ctx requestID) = GetUserID ctx := by
  have : ¬ requestIDKey = userIDKey := by decide
  simp [GetUserID, SetRequestID, context.WithValue, context.Value, this]

theorem Value_filter_ne (ctx : context.Context) (key : context.Key) :
    context.Value (ctx.filter (fun b => decide (b.1 ≠ key))) key = .nil := by
  induction ctx with
  | nil => rfl
  | cons b rest ih =>
    by_cases h : b.1 = key
    · simp only [List.filter, h, ne_eq, not_true_eq_false, decide_False]
      exact ih
    · simp only [List.filter, h, ne_eq, not_false_eq_true, decide_True, context.Value,
        if_false]
      exact ih

/-- C21: in every context `GetRequestID` returns the string last stored by `SetRequestID`
and `GetUserID` the string last stored by `SetUserID`; storing one identifier leaves the
other as it was, so after `SetRequestID("req-123")` and `SetUserID("user-456")` both are
read back; each returns the empty string when nothing is stored under its key, and when
what is stored there is nil or is not a string. -/
theorem context_identifiers (ctx : context.Context) (requestID userID : String) (n : Int) :
    GetRequestID (SetRequestID ctx requestID) = requestID ∧
      GetUserID (SetUserID ctx userID) = userID ∧
      GetRequestID (SetUserID ctx userID) = GetRequestID ctx ∧
      GetUserID (SetRequestID ctx requestID) = GetUserID ctx ∧
      GetRequestID (SetUserID (SetRequestID ctx requestID) userID) = requestID ∧
      GetUserID (SetUserID (SetRequestID ctx requestID) userID) = userID ∧
      GetRequestID (SetUserID (SetRequestID context.Background "req-123") "user-456")
        = "req-123" ∧
      GetUserID (SetUserID (SetRequestID context.Background "req-123") "user-456")
        = "user-456" ∧
      GetRequestID context.Background = "" ∧
      GetUserID context.Background = "" ∧
      GetRequestID (ctx.filter (fun b => decide (b.1 ≠ requestIDKey))) = "" ∧
      GetUserID (ctx.filter (fun b => decide (b.1 ≠ userIDKey))) = "" ∧
      GetRequestID (context.WithValue ctx requestIDKey .nil) = "" ∧
      GetUserID (context.WithValue ctx userIDKey .nil) = "" ∧
      GetRequestID (context.WithValue ctx requestIDKey (.int n)) = "" ∧
      GetUserID (context.WithValue ctx userIDKey (.int n)) = "" := by
  refine ⟨GetRequestID_SetRequestID _ _, GetUserID_SetUserID _ _, GetRequestID_SetUserID _ _,
    GetUserID_SetRequestID _ _, ?_, GetUserID_SetUserID _ _, by decide, by decide, rfl, rfl,
    ?_, ?_, ?_, ?_, ?_, ?_⟩
  · rw [GetRequestID_SetUserID, GetRequestID_SetRequestID]
  · simp only [GetRequestID, Value_filter_ne]
  · simp only [GetUserID, Value_filter_ne]
  · simp [GetRequestID, context.WithValue, context.Value]
  · simp [GetUserID, context.WithValue, context.Value]
  · simp [GetRequestID, context.WithValue, context.Value]
  · simp [GetUserID, context.WithValue, context.Value]

end utils

namespace middleware

open http

/-- C22: `io.ReadAll` leaves the body of the request at its end, where it yields no byte;
when the body is read without error, the request the middleware then hands to the next
handler has a body that yields the bytes of the original body, all of them, in order, and
no others, and is in every other respect the request that arrived, so the handler does on
the writer what it does when it is given that request directly.  A skipped request is
handed on as it is, whatever its body. -/
theorem LoggingMiddleware_restores_body {σ : Type} (env : Env) (serviceName : String)
    (next : Handler) (W : ResponseWriter σ) (w : σ) (r : Request) (data : Bytes)
    (hbody : r.Body = some ⟨data, none⟩) :
    (LoggingMiddleware env serviceName next W w r).w = (next r).run W w ∧
      (LoggingMiddleware env serviceName next W w r).w =
        (next (if routeKey env r ∈ skipRoutes then r
          else setBody (drainBody r) (readBody r))).run W w ∧
      readBody r = data ∧
      (drainBody r).Body.map (fun body => (ReadAll body).1) = some ([], none) ∧
      (data ≠ [] → drainBody r ≠ r) ∧
      (setBody (drainBody r) (readBody r)).Body.map (fun body => (ReadAll body).1)
        = some (data, none) ∧
      setBody (drainBody r) (readBody r) = r ∧
      (∀ any : Request, routeKey env any ∈ skipRoutes →
        (LoggingMiddleware env serviceName next W w any).w = (next any).run W w) := by
  have hserved := served_w env serviceName next W w r
  obtain ⟨m, u, hd, b, c, rt⟩ := r
  simp only at hbody
  subst hbody
  have hrestore : setBody (drainBody ⟨m, u, hd, some ⟨data, none⟩, c, rt⟩)
      (readBody ⟨m, u, hd, some ⟨data, none⟩, c, rt⟩) =
      ⟨m, u, hd, some ⟨data, none⟩, c, rt⟩ := rfl
  refine ⟨?_, hserved, rfl, rfl, ?_, rfl, hrestore, ?_⟩
  · rw [hserved]
    split_ifs
    · rfl
    · exact congrArg (fun x => (next x).run W w) hrestore
  · intro hne h
    have hb := congrArg Request.Body h
    simp only [drainBody, ReadAll, Body.drained, Option.some.injEq, Body.mk.injEq,
      and_true] at hb
    exact hne hb.symm
  · intro any hskip
    rw [served_w, if_pos hskip]

/-- The claim C22 at the scenario request, with a handler that writes back the body it
reads: the client receives the bytes of the request body, where the same handler given the
request as the read leaves it writes nothing. -/
theorem LoggingMiddleware_restores_body_witness :
    (LoggingMiddleware scenario.env "svc" scenario.echoHandler acceptAll ([], 0)
        scenario.createRequest).w =
      (refjson.ascii "\x7b\"email\":\"a@b.com\",\"password\":\"x\"\x7d", 0) ∧
    (scenario.echoHandler (drainBody scenario.createRequest)).run acceptAll ([], 0) =
      ([], 0) :=
  ⟨(LoggingMiddleware_restores_body scenario.env "svc" scenario.echoHandler acceptAll
      ([], 0) scenario.createRequest
      (refjson.ascii "\x7b\"email\":\"a@b.com\",\"password\":\"x\"\x7d") rfl).1.trans
      (by rfl),
   by rfl⟩

end middleware

namespace utils

open JSON

theorem wf_of_mem_entries (m : List (String × JSON)) (h : wfEntries m = true)
    (k : String) (v : JSON) (hm : (k, v) ∈ m) : v.wf = true := by
  induction m with
  | nil => simp at hm
  | cons e rest ih =>
    obtain ⟨l, x⟩ := e
    simp only [wfEntries, Bool.and_eq_true] at h
    rcases List.mem_cons.1 hm with heq | hmem
    · have : v = x := congrArg Prod.snd heq
      rw [this]
      exact h.1
    · exact ih h.2 hmem

theorem mem_maskSpec_entries (m : List (String × JSON)) (k : String) (v : JSON)
    (hm : (k, v) ∈ m) :
    (k, if k ∈ sensitiveKeys then JSON.str redacted else maskSpec v) ∈ maskSpec.entries m := by
  induction m with
  | nil => simp at hm
  | cons e rest ih =>
    obtain ⟨l, x⟩ := e
    simp only [maskSpec.entries]
    rcases List.mem_cons.1 hm with heq | hmem
    · have h1 : k = l := congrArg Prod.fst heq
      have h2 : v = x := congrArg Prod.snd heq
      subst h1 h2
      exact List.mem_cons_self _ _
    · exact List.mem_cons_of_mem _ (ih hmem)

theorem value_unique_of_nodup (n : List (String × JSON)) (h : (keys n).Nodup)
    (k : String) (x y : JSON) (hx : (k, x) ∈ n) (hy : (k, y) ∈ n) : x = y := by
  induction n with
  | nil => simp at hx
  | cons e rest ih =>
    obtain ⟨l, z⟩ := e
    simp only [keys, List.map_cons, List.nodup_cons] at h
    have hfresh : ∀ a, (l, a) ∉ rest := by
      intro a ha
      exact h.1 (List.mem_map_of_mem Prod.fst ha)
    rcases List.mem_cons.1 hx with hx1 | hx2
    · rcases List.mem_cons.1 hy with hy1 | hy2
      · exact (congrArg Prod.snd hx1).trans (congrArg Prod.snd hy1).symm
      · have hk : k = l := congrArg Prod.fst hx1
        subst hk
        exact absurd hy2 (hfresh y)
    · rcases List.mem_cons.1 hy with hy1 | hy2
      · have hk : k = l := congrArg Prod.fst hy1
        subst hk
        exact absurd hx2 (hfresh x)
      · exact ih h.2 hx2 hy2

theorem maskJSON_of_isScalar (v : JSON) (h : v.isScalar = true) : maskJSON v = v := by
  cases v <;> first | rfl | simp [isScalar] at h

/-- C23: the sensitive keys are matched by equality of strings: a key is sensitive exactly
when it is one of `email`, `phone_number`, `password`, `token`, `api_key`, which `Email`,
`PASSWORD`, `user_email` and `apiKey` are not.  In the output of `maskJSON` on an object, a
key that is not sensitive holds the masked form of its value and nothing else, which for a
scalar is the value itself. -/
theorem sensitive_keys_exact (m : List (String × JSON)) (k : String) (v : JSON)
    (hwf : (JSON.obj m).wf = true) (hm : (k, v) ∈ m) (hk : k ∉ sensitiveKeys) :
    (∀ key : String, key ∈ sensitiveKeys ↔
        key = "email" ∨ key = "phone_number" ∨ key = "password" ∨ key = "token" ∨
          key = "api_key") ∧
      ("Email" ∉ sensitiveKeys ∧ "PASSWORD" ∉ sensitiveKeys ∧ "user_email" ∉ sensitiveKeys ∧
        "apiKey" ∉ sensitiveKeys) ∧
      (∃ n, maskJSON (.obj m) = .obj n ∧ keys n = keys m ∧ (k, maskJSON v) ∈ n ∧
        (∀ x, (k, x) ∈ n → x = maskJSON v) ∧
        (v.isScalar = true → (k, v) ∈ n ∧ ∀ x, (k, x) ∈ n → x = v)) := by
  refine ⟨?_, by decide, ?_⟩
  · intro key
    simp [sensitiveKeys]
  · have hwf2 := hwf
    simp only [wf, Bool.and_eq_true, decide_eq_true_eq] at hwf2
    have hv : v.wf = true := wf_of_mem_entries m hwf2.2 k v hm
    have hmem : (k, maskJSON v) ∈ maskSpec.entries m := by
      have := mem_maskSpec_entries m k v hm
      rw [if_neg hk] at this
      rw [maskJSON_eq_maskSpec v hv]
      exact this
    have hnd : (keys (maskSpec.entries m)).Nodup := by
      rw [keys_maskSpec_entries]
      exact hwf2.1
    have huniq : ∀ x, (k, x) ∈ maskSpec.entries m → x = maskJSON v :=
      fun x hx => value_unique_of_nodup _ hnd k x _ hx hmem
    refine ⟨maskSpec.entries m, ?_, keys_maskSpec_entries m, hmem, huniq, ?_⟩
    · rw [maskJSON_eq_maskSpec _ hwf]
      simp only [maskSpec]
    · intro hs
      rw [← maskJSON_of_isScalar v hs]
      rw [maskJSON_of_isScalar v hs] at hmem huniq ⊢
      exact ⟨hmem, huniq⟩

/-- The claim C23 at an object whose keys differ from the sensitive keys by case, by a
prefix or by the spelling: `maskJSON` returns it as it is. -/
theorem sensitive_keys_exact_witness :
    maskJSON (.obj [("Email", .str "a@b.com"), ("PASSWORD", .str "x"),
        ("user_email", .num ⟨false, 7, 0⟩), ("apiKey", .null)]) =
      .obj [("Email", .str "a@b.com"), ("PASSWORD", .str "x"),
        ("user_email", .num ⟨false, 7, 0⟩), ("apiKey", .null)] ∧
    ∀ x, ("PASSWORD", x) ∈ [("Email", JSON.str "a@b.com"), ("PASSWORD", JSON.str "x"),
        ("user_email", .num ⟨false, 7, 0⟩), ("apiKey", .null)] → x = .str "x" :=
  ⟨by rfl,
   (sensitive_keys_exact [("Email", .str "a@b.com"), ("PASSWORD", .str "x"),
      ("user_email", .num ⟨false, 7, 0⟩), ("apiKey", .null)] "PASSWORD" (.str "x")
      (by decide) (by simp) (by decide)).2.2.elim
    (fun n hn => by
      have hobj : JSON.obj n = .obj [("Email", .str "a@b.com"), ("PASSWORD", .str "x"),
          ("user_email", .num ⟨false, 7, 0⟩), ("apiKey", .null)] := hn.1.symm.trans (by rfl)
      have hn2 := JSON.obj.inj hobj
      subst hn2
      exact (hn.2.2.2.2 rfl).2)⟩

end utils
